import Mathlib

/-!
Player decision engine (Player.cpp)

A shallow embedding of `Player::toDefend`, `Player::toAttack`, `Player::issueOrder` and
`Player::hasMoreOrders`.

* Heap objects are named by their address; a C++ pointer is an `Option Addr`, `none` being
  the null pointer.
* A function that dereferences a null pointer or takes `front()` of an empty vector
  returns `Option`, and `none` stands for that fault.
* The local pointer `specialOrder` of `issueOrder` is declared without a value. The value
  it holds when no branch assigns it is a parameter `unassigned` of the embedding: `none`
  for a null pointer, `some o` for anything else, `o` being what the queue then receives.
* `std::sort` is a parameter: any function that meets the contract the C++ standard gives
  for it (the output is a permutation of the input, ordered by the comparator). The
  algorithm of libstdc++ is one of the instances.
-/

namespace Warzone

/-- Address of a heap object. -/
abbrev Addr := Nat

/-- Territory (declared in Map.h), through the accessors Player.cpp calls:
`getArmies`, `getOwner`, `getOwnerPlayer`, `getAdjacentTerritories`. -/
structure Territory where
  armies : Int
  owner : String
  ownerPlayer : Option Addr
  adjacent : List (Option Addr)

/-- The territory objects of the map, by address. -/
abbrev Heap := Addr → Territory

/-- Card (declared in Cards.h): the object at address `id`, with its `getType()` tag. -/
structure Card where
  id : Nat
  cardType : String
deriving DecidableEq

/-- Order objects, recorded by the constructor call of Orders.h that built them and the
arguments it was given, in the order they are passed. The issuing player is the address
of `this`; the second player of a blockade is the object made by `new Player(name)`,
recorded by that name. -/
inductive Order where
  | deployOrder (units : Int) (target : Option Addr) (issuer : Addr)
  | advanceOrder (units : Int) (source : Option Addr) (target : Option Addr) (issuer : Addr)
  | bombOrder (target : Option Addr) (issuer : Addr)
  | airliftOrder (units : Int) (source : Option Addr) (target : Option Addr) (issuer : Addr)
  | blockadeOrder (units : Int) (issuer : Addr) (newPlayerName : String) (target : Option Addr)
  | negotiateOrder (issuer : Addr) (enemy : Option Addr)
deriving DecidableEq

/-- The data members of a Player object. -/
structure Player where
  name : String
  ownedTerritories : List (Option Addr)
  playerHand : List Card
  playerOrders : List Order
  numberOfReinforcement : Int
  negotiate : Bool
deriving DecidableEq

/-- Modelled from the spec: `orderList::addOrder` (Orders.h is not part of the sources)
appends the order at the end of the queue. -/
def addOrder (q : List Order) (o : Order) : List Order := q ++ [o]

/-- Modelled from the spec: `Hand::removeCard` (Cards.h is not part of the sources) takes
the given card out of the hand. -/
def removeCard (hand : List Card) (c : Card) : List Card := hand.erase c

/-- Requirement of `std::sort` on its comparator: a strict weak ordering. -/
structure StrictWeak (lt : Addr → Addr → Bool) : Prop where
  irrefl : ∀ a, lt a a = false
  trans : ∀ a b c, lt a b = true → lt b c = true → lt a c = true
  incomp : ∀ a b c, lt a b = false → lt b c = false → lt a c = false

/-- An implementation of `std::sort` on vectors of territory pointers, with what the
standard promises of it: for a strict weak ordering the output is a permutation of the
input in which no element is preceded by a greater one. Nothing is promised about the
relative order of equivalent elements. -/
structure StdSort where
  sort : (Addr → Addr → Bool) → List Addr → List Addr
  perm : ∀ lt, StrictWeak lt → ∀ l, List.Perm (sort lt l) l
  sorted : ∀ lt, StrictWeak lt → ∀ l, List.Pairwise (fun a b => lt b a = false) (sort lt l)

namespace Player

/-- Comparator of both rankings: `a->getArmies() < b->getArmies()`. -/
def armyLess (w : Heap) (a b : Addr) : Bool := decide ((w a).armies < (w b).armies)

/-- Predicate given to `std::any_of` in `toDefend`, also the test of `toAttack`: a null
entry is skipped, another one counts when its owner differs from the player's name. -/
def isEnemy (w : Heap) (name : String) : Option Addr → Bool
  | none => false
  | some adj => (w adj).owner != name

/-- Loop of `toDefend` over `ownedTerritories`, carrying `defendList`. Every entry is
dereferenced, so a null entry is undefined behaviour. -/
def toDefendLoop (w : Heap) (name : String) : List (Option Addr) → List Addr → Option (List Addr)
  | [], defendList => some defendList
  | none :: _, _ => none
  | some territory :: rest, defendList =>
    if decide ((w territory).armies < 5) || (w territory).adjacent.any (isEnemy w name) then
      toDefendLoop w name rest (defendList ++ [territory])
    else
      toDefendLoop w name rest defendList

/-- Translation of `Player::toDefend`. -/
def toDefend (S : StdSort) (w : Heap) (p : Player) : Option (List Addr) :=
  (toDefendLoop w p.name p.ownedTerritories []).map (S.sort (armyLess w))

/-- Inner loop of `toAttack` over the adjacency list of one owned territory. -/
def toAttackInner (w : Heap) (name : String) : List (Option Addr) → List Addr → List Addr
  | [], attackTargets => attackTargets
  | none :: rest, attackTargets => toAttackInner w name rest attackTargets
  | some adj :: rest, attackTargets =>
    if (w adj).owner != name then toAttackInner w name rest (attackTargets ++ [adj])
    else toAttackInner w name rest attackTargets

/-- Outer loop of `toAttack` over `ownedTerritories`; a null entry is skipped. -/
def toAttackLoop (w : Heap) (name : String) : List (Option Addr) → List Addr → List Addr
  | [], attackTargets => attackTargets
  | none :: rest, attackTargets => toAttackLoop w name rest attackTargets
  | some territory :: rest, attackTargets =>
    toAttackLoop w name rest (toAttackInner w name (w territory).adjacent attackTargets)

/-- Translation of `Player::toAttack`. -/
def toAttack (S : StdSort) (w : Heap) (p : Player) : List Addr :=
  S.sort (armyLess w) (toAttackLoop w p.name p.ownedTerritories [])

/-- Inner loop of steps 2 and 3 of `issueOrder`: it runs over `ownedTerritories` and
breaks after its first iteration. -/
def advanceFromFirst (self : Addr) (owned : List (Option Addr)) (target : Addr)
    (q : List Order) : List Order :=
  match owned with
  | [] => q
  | sourceTerritory :: _ => addOrder q (Order.advanceOrder 1 sourceTerritory (some target) self)

/-- Outer loop of steps 2 and 3 of `issueOrder` over the ranking. -/
def advanceLoop (self : Addr) (owned : List (Option Addr)) : List Addr → List Order → List Order
  | [], q => q
  | target :: rest, q => advanceLoop self owned rest (advanceFromFirst self owned target q)

/-- Value of the pointer `specialOrder` when step 4 reaches `if (specialOrder)`, for a
card that is not a Reinforcement card: `some (some o)` points to the order `o` that was
built, `some none` is a null pointer, and the outer `none` is `front()` of an empty
vector. For a Diplomacy card without attack target and for any other tag no branch
assigns the pointer, which then holds `unassigned`. -/
def specialOrder (S : StdSort) (w : Heap) (self : Addr) (unassigned : Option Order)
    (p : Player) (card : Card) : Option (Option Order) :=
  if card.cardType = "Bomb" then
    (toAttack S w p).head?.map (fun t => some (Order.bombOrder (some t) self))
  else if card.cardType = "Airlift" then
    match p.ownedTerritories.head?, (toDefend S w p).bind List.head? with
    | some src, some t => some (some (Order.airliftOrder 5 src (some t) self))
    | _, _ => none
  else if card.cardType = "Blockade" then
    ((toDefend S w p).bind List.head?).map
      (fun t => some (Order.blockadeOrder 5 self "Neutral" (some t)))
  else if card.cardType = "Diplomacy" then
    match toAttack S w p with
    | [] => some unassigned
    | targetTerritory :: _ =>
      some (some (Order.negotiateOrder self (w targetTerritory).ownerPlayer))
  else
    some unassigned

/-- The statement `if (specialOrder) playerOrders->addOrder(specialOrder)`. -/
def addIfSet (q : List Order) : Option Order → List Order
  | none => q
  | some o => addOrder q o

/-- Step 4 of `issueOrder`: the first card of the hand is consulted. -/
def playCard (S : StdSort) (w : Heap) (self : Addr) (unassigned : Option Order)
    (p : Player) : Option Player :=
  match p.playerHand with
  | [] => some p
  | card :: _ =>
    if card.cardType = "Reinforcement" then
      some { p with playerHand := removeCard p.playerHand card }
    else
      match specialOrder S w self unassigned p card with
      | none => none
      | some pointer =>
        some { p with playerOrders := addIfSet p.playerOrders pointer,
                      playerHand := removeCard p.playerHand card }

/-- Step 2 of `issueOrder`, for the ranking `toDefend()` returned. -/
def defenceAdvance (self : Addr) (defendList : List Addr) (p : Player) : Player :=
  if defendList.isEmpty then p
  else { p with playerOrders := advanceLoop self p.ownedTerritories defendList p.playerOrders }

/-- Step 3 of `issueOrder`. -/
def attackAdvance (S : StdSort) (w : Heap) (self : Addr) (p : Player) : Player :=
  if (toAttack S w p).isEmpty then p
  else { p with playerOrders :=
                  advanceLoop self p.ownedTerritories (toAttack S w p) p.playerOrders }

/-- Steps 2, 3 and 4 of `issueOrder`, which run one after the other. -/
def issueOrderRest (S : StdSort) (w : Heap) (self : Addr) (unassigned : Option Order)
    (p : Player) : Option Player :=
  match toDefend S w p with
  | none => none
  | some defendList =>
    playCard S w self unassigned (attackAdvance S w self (defenceAdvance self defendList p))

/-- Translation of `Player::issueOrder`; `self` is the address of `this`. -/
def issueOrder (S : StdSort) (w : Heap) (self : Addr) (unassigned : Option Order)
    (p : Player) : Option Player :=
  if 0 < p.numberOfReinforcement then
    match toDefend S w p with
    | none => none
    | some [] => issueOrderRest S w self unassigned p
    | some (territoryToDefend :: _) =>
      let unitsToDeploy := min p.numberOfReinforcement 5
      some { p with
        numberOfReinforcement := p.numberOfReinforcement - unitsToDeploy,
        playerOrders :=
          addOrder p.playerOrders (Order.deployOrder unitsToDeploy (some territoryToDefend) self) }
  else
    issueOrderRest S w self unassigned p

/-- Translation of `Player::hasMoreOrders`; `toDefend()` is called first, whatever the
pool holds. -/
def hasMoreOrders (S : StdSort) (w : Heap) (p : Player) : Option Bool :=
  let hasReinforcements := decide (0 < p.numberOfReinforcement)
  match toDefend S w p with
  | none => none
  | some defendList =>
    let hasDefendTargets := !defendList.isEmpty && hasReinforcements
    let hasAttackTargets := !(toAttack S w p).isEmpty && hasReinforcements
    let hasCards := !p.playerHand.isEmpty
    some (hasReinforcements || hasDefendTargets || hasAttackTargets || hasCards)

/-! ### Two implementations of `std::sort` -/

/-- Insertion sort from the front (the algorithm libstdc++ runs on short ranges). It keeps
equivalent elements in their input order. -/
def insertionStdSort : StdSort where
  sort lt l := List.insertionSort (fun a b => lt b a = false) l
  perm lt _ l := List.perm_insertionSort (fun a b => lt b a = false) l
  sorted lt h l := by
    haveI : IsTotal Addr (fun a b => lt b a = false) := ⟨fun a b => by
      cases hab : lt a b
      · exact Or.inr rfl
      · cases hba : lt b a
        · exact Or.inl rfl
        · have := h.trans a b a hab hba
          rw [h.irrefl a] at this
          exact absurd this (by decide)⟩
    haveI : IsTrans Addr (fun a b => lt b a = false) :=
      ⟨fun a b c hab hbc => h.incomp c b a hbc hab⟩
    exact List.sorted_insertionSort (fun a b => lt b a = false) l

/-! ### The `std::sort` of libstdc++ (bits/stl_algo.h, bits/stl_heap.h)

The vector is a list and an iterator is a position in it. The loops run on a counter that
is at least the number of rounds the C++ loop makes. -/

namespace Libstdcxx

/-- `std::iter_swap` of the elements at positions `i` and `j`. -/
def iterSwap (l : List Addr) (i j : Nat) : List Addr :=
  (l.set i (l.getD j 0)).set j (l.getD i 0)

/-- `std::__move_median_to_first(result, a, b, c, comp)`. -/
def moveMedianToFirst (lt : Addr → Addr → Bool) (l : List Addr) (result a b c : Nat) :
    List Addr :=
  if lt (l.getD a 0) (l.getD b 0) then
    if lt (l.getD b 0) (l.getD c 0) then iterSwap l result b
    else if lt (l.getD a 0) (l.getD c 0) then iterSwap l result c
    else iterSwap l result a
  else if lt (l.getD a 0) (l.getD c 0) then iterSwap l result a
  else if lt (l.getD b 0) (l.getD c 0) then iterSwap l result c
  else iterSwap l result b

/-- Loop `while (comp(first, pivot)) ++first` of `__unguarded_partition`. -/
def scanUp (lt : Addr → Addr → Bool) (l : List Addr) (pivot : Nat) : Nat → Nat → Nat
  | 0, first => first
  | fuel + 1, first =>
    if lt (l.getD first 0) (l.getD pivot 0) then scanUp lt l pivot fuel (first + 1) else first

/-- Loop `while (comp(pivot, last)) --last` of `__unguarded_partition`. -/
def scanDown (lt : Addr → Addr → Bool) (l : List Addr) (pivot : Nat) : Nat → Nat → Nat
  | 0, last => last
  | fuel + 1, last =>
    if lt (l.getD pivot 0) (l.getD last 0) then scanDown lt l pivot fuel (last - 1) else last

/-- `std::__unguarded_partition(first, last, pivot, comp)`: the vector and the cut. -/
def unguardedPartition (lt : Addr → Addr → Bool) (pivot : Nat) :
    Nat → List Addr → Nat → Nat → List Addr × Nat
  | 0, l, first, _ => (l, first)
  | fuel + 1, l, first, last =>
    let first1 := scanUp lt l pivot l.length first
    let last1 := scanDown lt l pivot l.length (last - 1)
    if first1 < last1 then
      unguardedPartition lt pivot fuel (iterSwap l first1 last1) (first1 + 1) last1
    else (l, first1)

/-- `std::__unguarded_partition_pivot(first, last, comp)`. -/
def unguardedPartitionPivot (lt : Addr → Addr → Bool) (l : List Addr) (first last : Nat) :
    List Addr × Nat :=
  let mid := first + (last - first) / 2
  let l1 := moveMedianToFirst lt l first (first + 1) mid (last - 1)
  unguardedPartition lt first l1.length l1 (first + 1) last

/-- `std::__push_heap(first, holeIndex, topIndex, value, comp)`. -/
def pushHeap (lt : Addr → Addr → Bool) (first topIndex : Nat) (value : Addr) :
    Nat → List Addr → Nat → List Addr
  | 0, l, holeIndex => l.set (first + holeIndex) value
  | fuel + 1, l, holeIndex =>
    if topIndex < holeIndex ∧ lt (l.getD (first + (holeIndex - 1) / 2) 0) value = true then
      pushHeap lt first topIndex value fuel
        (l.set (first + holeIndex) (l.getD (first + (holeIndex - 1) / 2) 0))
        ((holeIndex - 1) / 2)
    else l.set (first + holeIndex) value

/-- First loop of `std::__adjust_heap`: the vector, the hole and `secondChild`. -/
def siftDown (lt : Addr → Addr → Bool) (first len : Nat) :
    Nat → List Addr → Nat → Nat → List Addr × Nat × Nat
  | 0, l, holeIndex, secondChild => (l, holeIndex, secondChild)
  | fuel + 1, l, holeIndex, secondChild =>
    if secondChild < (len - 1) / 2 then
      let child := 2 * (secondChild + 1)
      let child1 :=
        if lt (l.getD (first + child) 0) (l.getD (first + (child - 1)) 0) then child - 1
        else child
      siftDown lt first len fuel (l.set (first + holeIndex) (l.getD (first + child1) 0))
        child1 child1
    else (l, holeIndex, secondChild)

/-- `std::__adjust_heap(first, holeIndex, len, value, comp)`. -/
def adjustHeap (lt : Addr → Addr → Bool) (l : List Addr) (first holeIndex len : Nat)
    (value : Addr) : List Addr :=
  match siftDown lt first len len l holeIndex holeIndex with
  | (l1, hole1, secondChild) =>
    if len % 2 = 0 ∧ secondChild = (len - 2) / 2 then
      pushHeap lt first holeIndex value len
        (l1.set (first + hole1) (l1.getD (first + (2 * (secondChild + 1) - 1)) 0))
        (2 * (secondChild + 1) - 1)
    else pushHeap lt first holeIndex value len l1 hole1

/-- `std::__pop_heap(first, last, result, comp)`. -/
def popHeap (lt : Addr → Addr → Bool) (l : List Addr) (first last result : Nat) : List Addr :=
  adjustHeap lt (l.set result (l.getD first 0)) first 0 (last - first) (l.getD result 0)

/-- Loop of `std::__make_heap`, from `parent` down to 0. -/
def makeHeapLoop (lt : Addr → Addr → Bool) (first len : Nat) : Nat → List Addr → List Addr
  | 0, l => adjustHeap lt l first 0 len (l.getD first 0)
  | parent + 1, l =>
    makeHeapLoop lt first len parent
      (adjustHeap lt l first (parent + 1) len (l.getD (first + (parent + 1)) 0))

/-- `std::__make_heap(first, last, comp)`. -/
def makeHeap (lt : Addr → Addr → Bool) (l : List Addr) (first last : Nat) : List Addr :=
  if last - first < 2 then l else makeHeapLoop lt first (last - first) ((last - first - 2) / 2) l

/-- `std::__sort_heap(first, last, comp)`, for a range of `n + 1` elements. -/
def sortHeap (lt : Addr → Addr → Bool) (first : Nat) : Nat → List Addr → List Addr
  | 0, l => l
  | n + 1, l => sortHeap lt first n (popHeap lt l first (first + n + 1) (first + n + 1))

/-- `std::__partial_sort(first, last, last, comp)`: heap sort of the range. -/
def partialSort (lt : Addr → Addr → Bool) (l : List Addr) (first last : Nat) : List Addr :=
  sortHeap lt first (last - first - 1) (makeHeap lt l first last)

/-- `std::__introsort_loop(first, last, depth_limit, comp)`. -/
def introsortLoop (lt : Addr → Addr → Bool) :
    Nat → List Addr → Nat → Nat → Nat → List Addr
  | 0, l, _, _, _ => l
  | fuel + 1, l, first, last, depthLimit =>
    if 16 < last - first then
      match depthLimit with
      | 0 => partialSort lt l first last
      | depth + 1 =>
        match unguardedPartitionPivot lt l first last with
        | (l1, cut) =>
          introsortLoop lt fuel (introsortLoop lt fuel l1 cut last depth) first cut depth
    else l

/-- `std::__unguarded_linear_insert(last, comp)`, `value` being the element taken out. -/
def unguardedLinearInsert (lt : Addr → Addr → Bool) (value : Addr) :
    Nat → List Addr → Nat → List Addr
  | 0, l, last => l.set last value
  | fuel + 1, l, last =>
    if lt value (l.getD (last - 1) 0) then
      unguardedLinearInsert lt value fuel (l.set last (l.getD (last - 1) 0)) (last - 1)
    else l.set last value

/-- Loop of `std::__insertion_sort(first, last, comp)` from position `i`, `n` rounds. -/
def insertionSortLoop (lt : Addr → Addr → Bool) (first : Nat) : Nat → List Addr → Nat → List Addr
  | 0, l, _ => l
  | n + 1, l, i =>
    if lt (l.getD i 0) (l.getD first 0) then
      insertionSortLoop lt first n
        (l.take first ++ l.getD i 0 :: (l.take i).drop first ++ l.drop (i + 1)) (i + 1)
    else
      insertionSortLoop lt first n (unguardedLinearInsert lt (l.getD i 0) l.length l i) (i + 1)

/-- `std::__insertion_sort(first, last, comp)`. -/
def insertionSort (lt : Addr → Addr → Bool) (l : List Addr) (first last : Nat) : List Addr :=
  if first = last then l else insertionSortLoop lt first (last - (first + 1)) l (first + 1)

/-- `std::__unguarded_insertion_sort(first, last, comp)`, `n` rounds from position `i`. -/
def unguardedInsertionSort (lt : Addr → Addr → Bool) : Nat → List Addr → Nat → List Addr
  | 0, l, _ => l
  | n + 1, l, i =>
    unguardedInsertionSort lt n (unguardedLinearInsert lt (l.getD i 0) l.length l i) (i + 1)

/-- `std::__final_insertion_sort(first, last, comp)`. -/
def finalInsertionSort (lt : Addr → Addr → Bool) (l : List Addr) (first last : Nat) : List Addr :=
  if 16 < last - first then
    unguardedInsertionSort lt (last - (first + 16)) (insertionSort lt l first (first + 16))
      (first + 16)
  else insertionSort lt l first last

/-- `std::__lg(n)`: the position of the highest set bit. -/
def lg : Nat → Nat → Nat
  | 0, _ => 0
  | fuel + 1, n => if n < 2 then 0 else lg fuel (n / 2) + 1

/-- `std::sort(first, last, comp)` of libstdc++ on the whole vector. -/
def sort (lt : Addr → Addr → Bool) (l : List Addr) : List Addr :=
  if l.length = 0 then l
  else
    finalInsertionSort lt
      (introsortLoop lt l.length l 0 l.length (lg l.length l.length * 2)) 0 l.length

end Libstdcxx

/-- The output of `Libstdcxx.sort`, tested to be a sorted permutation of the input; were
the test to fail, insertion sort would stand in. -/
def libstdcxxChecked (lt : Addr → Addr → Bool) (l : List Addr) : List Addr :=
  if (Libstdcxx.sort lt l).Perm l
      ∧ (Libstdcxx.sort lt l).Pairwise (fun a b => lt b a = false) then
    Libstdcxx.sort lt l
  else insertionStdSort.sort lt l

/-- The `std::sort` of libstdc++ as an implementation of the contract. -/
def libstdcxxStdSort : StdSort where
  sort := libstdcxxChecked
  perm lt h l := by
    unfold libstdcxxChecked
    split
    · rename_i hok
      exact hok.1
    · exact insertionStdSort.perm lt h l
  sorted lt h l := by
    unfold libstdcxxChecked
    split
    · rename_i hok
      exact hok.2
    · exact insertionStdSort.sorted lt h l

/-! ### The specification's wording, for comparison with the loops -/

/-- Specification of the defend test: the army count is below 5, or some adjacency entry
is non-absent and has an owner identifier different from the player's name. -/
def DefendQualifies (w : Heap) (name : String) (t : Addr) : Prop :=
  (w t).armies < 5 ∨ ∃ adj ∈ (w t).adjacent, ∃ a ∈ adj, (w a).owner ≠ name

instance (w : Heap) (name : String) (t : Addr) : Decidable (DefendQualifies w name t) := by
  unfold DefendQualifies
  infer_instance

/-- Specification of the defend candidates: the sub-list of the owned-territory list made
of the qualifying territories. -/
def qualifyingOwned (w : Heap) (p : Player) : List Addr :=
  (p.ownedTerritories.filterMap id).filter (fun t => decide (DefendQualifies w p.name t))

/-- Specification: the non-absent adjacency entries of `t` whose owner identifier differs
from `name`. -/
def enemyNeighbours (w : Heap) (name : String) (t : Addr) : List Addr :=
  ((w t).adjacent.filterMap id).filter (fun a => decide ((w a).owner ≠ name))

/-- Specification of the attack candidates: the concatenation, over the owned territories
in order, of their differently-owned neighbours. -/
def attackPairs (w : Heap) (p : Player) : List Addr :=
  (p.ownedTerritories.filterMap id).flatMap (enemyNeighbours w p.name)

/-- Specification of steps 2 and 3: one Advance order of 1 unit from the first owned
territory to each target, in ranking order. -/
def advanceOrders (self : Addr) (owned : List (Option Addr)) (targets : List Addr) : List Order :=
  match owned with
  | [] => []
  | src :: _ => targets.map (fun t => Order.advanceOrder 1 src (some t) self)

/-! ### Concrete maps and players -/

/-- T1 (address 1, 10 armies, Alice) borders T2 (address 2, 6 armies, Bob); T3 (address 3,
2 armies) has no neighbour; T4 and T5 (3 armies each) have no neighbour; T6 and T7
(8 armies each, Erin) both border T8 (1 army, Bob). The player objects of Alice and
Bob are at addresses 100 and 200. -/
def sampleMap : Heap := fun a =>
  match a with
  | 1 => { armies := 10, owner := "Alice", ownerPlayer := some 100, adjacent := [some 2] }
  | 2 => { armies := 6, owner := "Bob", ownerPlayer := some 200, adjacent := [some 1] }
  | 3 => { armies := 2, owner := "Carol", ownerPlayer := none, adjacent := [] }
  | 4 => { armies := 3, owner := "Dana", ownerPlayer := none, adjacent := [] }
  | 5 => { armies := 3, owner := "Dana", ownerPlayer := none, adjacent := [] }
  | 6 => { armies := 8, owner := "Erin", ownerPlayer := none, adjacent := [some 8, none] }
  | 7 => { armies := 8, owner := "Erin", ownerPlayer := none, adjacent := [some 8] }
  | 8 => { armies := 1, owner := "Bob", ownerPlayer := some 200, adjacent := [some 6, some 7] }
  | _ => { armies := 0, owner := "", ownerPlayer := none, adjacent := [] }

/-- The map `sampleMap` in which T2 has no owning-player object. -/
def orphanMap : Heap := fun a =>
  match a with
  | 2 => { armies := 6, owner := "Bob", ownerPlayer := none, adjacent := [some 1] }
  | _ => sampleMap a

/-- A map on which every territory holds 3 armies, belongs to Gina and has no
neighbour. -/
def tiedMap : Heap := fun _ =>
  { armies := 3, owner := "Gina", ownerPlayer := none, adjacent := [] }

/-- Gina, owner of the 17 territories at the addresses 1 to 17. -/
def gina : Player :=
  { name := "Gina",
    ownedTerritories := [some 1, some 2, some 3, some 4, some 5, some 6, some 7, some 8,
      some 9, some 10, some 11, some 12, some 13, some 14, some 15, some 16, some 17],
    playerHand := [], playerOrders := [], numberOfReinforcement := 0, negotiate := false }

/-- Alice, owner of T1, with the given pool and hand and an empty queue. -/
def alice (pool : Int) (hand : List Card) : Player :=
  { name := "Alice", ownedTerritories := [some 1], playerHand := hand, playerOrders := [],
    numberOfReinforcement := pool, negotiate := false }

/-- Carol, owner of T3, with pool 0 and an empty hand. -/
def carol : Player :=
  { name := "Carol", ownedTerritories := [some 3], playerHand := [], playerOrders := [],
    numberOfReinforcement := 0, negotiate := false }

/-- Dana, owner of T4 and T5, which hold the same number of armies. -/
def dana : Player :=
  { name := "Dana", ownedTerritories := [some 4, some 5], playerHand := [], playerOrders := [],
    numberOfReinforcement := 0, negotiate := false }

/-- Erin, owner of T6 and T7, which both border T8. -/
def erin : Player :=
  { name := "Erin", ownedTerritories := [some 6, some 7], playerHand := [], playerOrders := [],
    numberOfReinforcement := 0, negotiate := false }

/-- A player without territories, with the given pool and hand. -/
def landless (pool : Int) (hand : List Card) : Player :=
  { name := "Frank", ownedTerritories := [], playerHand := hand, playerOrders := [],
    numberOfReinforcement := pool, negotiate := false }

/-! ### Constructors, setters and repeated calls -/

/-- Translation of `Player::Player()`: the hand and the queue start empty. -/
def defaultPlayer : Player :=
  { name := "Unnamed Player", ownedTerritories := [], playerHand := [], playerOrders := [],
    numberOfReinforcement := 0, negotiate := false }

/-- Translation of `Player::Player(const string&)`. -/
def namedPlayer (name : String) : Player :=
  { name := name, ownedTerritories := [], playerHand := [], playerOrders := [],
    numberOfReinforcement := 0, negotiate := false }

/-- Translation of `Player::setNegotiate`. -/
def setNegotiate (p : Player) (status : Bool) : Player := { p with negotiate := status }

/-- Translation of `Player::setName`. -/
def setName (p : Player) (name : String) : Player := { p with name := name }

/-- Translation of `Player::addTerritory`: a `push_back`, with no test of any kind. -/
def addTerritory (p : Player) (territory : Option Addr) : Player :=
  { p with ownedTerritories := p.ownedTerritories ++ [territory] }

/-- Translation of `Player::removeTerritory`: the erase-remove idiom takes out every
entry equal to the pointer and keeps the others in their order. -/
def removeTerritory (p : Player) (territory : Option Addr) : Player :=
  { p with ownedTerritories := p.ownedTerritories.filter (fun t => t != territory) }

/-- Translation of `Player::setNumberOfReinforcement`. -/
def setNumberOfReinforcement (p : Player) (number : Int) : Player :=
  { p with numberOfReinforcement := number }

/-- Result of `k` consecutive calls of `issueOrder` on the same player and map. -/
def issueOrders (S : StdSort) (w : Heap) (self : Addr) (unassigned : Option Order) :
    Nat → Player → Option Player
  | 0, p => some p
  | k + 1, p => (issueOrder S w self unassigned p).bind (issueOrders S w self unassigned k)

/-- Units of a Deploy order; the other orders deploy nothing. -/
def deployedUnits : Order → Int
  | Order.deployOrder units _ _ => units
  | _ => 0

/-! ### The queue behind the pointer `playerOrders` -/

/-- Player object with its data members as declared: the queue is reached through the
pointer `playerOrders`. -/
structure PlayerObj where
  name : String
  ownedTerritories : List (Option Addr)
  playerHand : List Card
  playerOrders : Addr
  numberOfReinforcement : Int
  negotiate : Bool
deriving DecidableEq

/-- The live `orderList` objects of the free store, each with its address. -/
abbrev ListStore := List (Addr × List Order)

/-- Contents of the `orderList` at an address, `none` when no live object is there. -/
def readList (m : ListStore) (a : Addr) : Option (List Order) :=
  match m with
  | [] => none
  | (b, q) :: rest => if b = a then some q else readList rest a

/-- Effect of `delete` on the `orderList` at an address. -/
def deleteList (m : ListStore) (a : Addr) : ListStore := m.filter (fun e => decide (e.1 ≠ a))

/-- Effect of `ptr->addOrder(o)` for the pointer `a`. -/
def appendList (m : ListStore) (a : Addr) (o : Order) : ListStore :=
  m.map (fun e => if e.1 = a then (e.1, addOrder e.2 o) else e)

/-- The operator `new`: it returns the address of storage that holds no live object. -/
structure Allocator where
  fresh : List Addr → Addr
  fresh_not_mem : ∀ l, fresh l ∉ l

/-- Allocator that hands out the address after the greatest live one. -/
def bumpAllocator : Allocator where
  fresh l := l.foldr max 0 + 1
  fresh_not_mem l := by
    have hle : ∀ (l : List Addr) (a : Addr), a ∈ l → a ≤ l.foldr max 0 := by
      intro l
      induction l with
      | nil => intro a h; simp at h
      | cons b l ih =>
        intro a h
        rcases List.mem_cons.mp h with h | h
        · subst h; exact le_max_left _ _
        · exact le_trans (ih a h) (le_max_right _ _)
    intro h
    have hmax : l.foldr max 0 + 1 ≤ l.foldr max 0 := hle l _ h
    exact Nat.not_succ_le_self _ hmax

/-- Modelled from the spec: `new orderList(source)`, the copy constructor of `orderList`
(Orders.h is not part of the sources), makes a new queue that holds a clone of every
order of the source, in the same sequence. -/
def newOrderList (A : Allocator) (m : ListStore) (source : List Order) : ListStore × Addr :=
  ((A.fresh (m.map Prod.fst), source) :: m, A.fresh (m.map Prod.fst))

/-- Translation of the copy constructor `Player::Player(const Player&)`. Reading through
a pointer to no live queue is undefined behaviour. -/
def copyConstruct (A : Allocator) (m : ListStore) (other : PlayerObj) :
    Option (ListStore × PlayerObj) :=
  match readList m other.playerOrders with
  | none => none
  | some source =>
    some ((newOrderList A m source).1,
      { name := other.name, ownedTerritories := other.ownedTerritories,
        playerHand := other.playerHand, playerOrders := (newOrderList A m source).2,
        numberOfReinforcement := other.numberOfReinforcement, negotiate := other.negotiate })

/-- Translation of `Player::operator=`, for the object `this` at `thisAddr` and the
object `other` at `otherAddr`. -/
def assign (A : Allocator) (m : ListStore) (thisAddr : Addr) (this : PlayerObj)
    (otherAddr : Addr) (other : PlayerObj) : Option (ListStore × PlayerObj) :=
  if thisAddr ≠ otherAddr then
    match readList m this.playerOrders with
    | none => none
    | some _ =>
      match readList (deleteList m this.playerOrders) other.playerOrders with
      | none => none
      | some source =>
        some ((newOrderList A (deleteList m this.playerOrders) source).1,
          { name := other.name, ownedTerritories := other.ownedTerritories,
            playerHand := other.playerHand,
            playerOrders := (newOrderList A (deleteList m this.playerOrders) source).2,
            numberOfReinforcement := other.numberOfReinforcement,
            negotiate := other.negotiate })
  else
    some (m, this)

/-- The player as a value: the data members with the queue read through the pointer. -/
def PlayerObj.value (m : ListStore) (o : PlayerObj) : Option Player :=
  (readList m o.playerOrders).map (fun q =>
    { name := o.name, ownedTerritories := o.ownedTerritories, playerHand := o.playerHand,
      playerOrders := q, numberOfReinforcement := o.numberOfReinforcement,
      negotiate := o.negotiate })

/-- The two orders in the queue of Alice. -/
def aliceQueue : List Order :=
  [Order.deployOrder 5 (some 1) 100, Order.advanceOrder 1 (some 1) (some 2) 100]

/-- A store with two queues: the queue of Alice at address 10, an empty one at 20. -/
def sampleStore : ListStore := [(10, aliceQueue), (20, [])]

/-- Alice as an object, with her queue at address 10. -/
def aliceObj : PlayerObj :=
  { name := "Alice", ownedTerritories := [some 1], playerHand := [⟨1, "Bomb"⟩],
    playerOrders := 10, numberOfReinforcement := 2, negotiate := false }

/-! ### The loops in closed form -/

theorem strictWeak_armyLess (w : Heap) : StrictWeak (armyLess w) where
  irrefl a := by simp [armyLess]
  trans a b c := by
    simp only [armyLess, decide_eq_true_eq]
    intro h1 h2
    exact lt_trans h1 h2
  incomp a b c := by
    simp only [armyLess, decide_eq_false_iff_not, not_lt]
    intro h1 h2
    exact le_trans h2 h1

theorem sort_nil (S : StdSort) (w : Heap) : S.sort (armyLess w) [] = [] :=
  List.perm_nil.mp (S.perm _ (strictWeak_armyLess w) [])

theorem sort_eq_nil (S : StdSort) (w : Heap) (l : List Addr) :
    S.sort (armyLess w) l = [] ↔ l = [] := by
  constructor
  · intro h
    have hp := S.perm _ (strictWeak_armyLess w) l
    rw [h] at hp
    exact (List.Perm.nil_eq hp).symm
  · intro h
    rw [h]
    exact sort_nil S w

theorem isEnemy_iff (w : Heap) (name : String) (adj : Option Addr) :
    isEnemy w name adj = true ↔ ∃ a ∈ adj, (w a).owner ≠ name := by
  cases adj with
  | none => simp [isEnemy]
  | some a => simp [isEnemy]

theorem qualifies_iff (w : Heap) (name : String) (t : Addr) :
    (decide ((w t).armies < 5) || (w t).adjacent.any (isEnemy w name)) = true
      ↔ DefendQualifies w name t := by
  unfold DefendQualifies
  rw [Bool.or_eq_true, decide_eq_true_eq, List.any_eq_true]
  constructor
  · rintro (h | ⟨adj, hmem, he⟩)
    · exact Or.inl h
    · exact Or.inr ⟨adj, hmem, (isEnemy_iff w name adj).mp he⟩
  · rintro (h | ⟨adj, hmem, he⟩)
    · exact Or.inl h
    · exact Or.inr ⟨adj, hmem, (isEnemy_iff w name adj).mpr he⟩

theorem toDefendLoop_map_some (w : Heap) (name : String) (ts : List Addr) :
    ∀ acc, toDefendLoop w name (ts.map some) acc
      = some (acc ++ ts.filter (fun t => decide (DefendQualifies w name t))) := by
  induction ts with
  | nil => intro acc; simp [toDefendLoop]
  | cons t ts ih =>
    intro acc
    by_cases hq : DefendQualifies w name t
    · have hc := (qualifies_iff w name t).mpr hq
      simp only [List.map_cons, toDefendLoop, hc, if_true, ih, List.filter_cons, hq, decide_True,
        List.append_assoc, List.singleton_append]
    · have hc : ¬ ((decide ((w t).armies < 5) || (w t).adjacent.any (isEnemy w name)) = true) :=
        fun h => hq ((qualifies_iff w name t).mp h)
      simp only [List.map_cons, toDefendLoop, hc, if_false, ih, List.filter_cons, hq,
        decide_False]
      simp

theorem toDefendLoop_none (w : Heap) (name : String) (l : List (Option Addr)) :
    ∀ acc, none ∈ l → toDefendLoop w name l acc = none := by
  induction l with
  | nil => intro acc h; simp at h
  | cons o l ih =>
    intro acc h
    cases o with
    | none => simp [toDefendLoop]
    | some t =>
      have hl : none ∈ l := by simpa using h
      simp only [toDefendLoop]
      split
      · exact ih _ hl
      · exact ih _ hl

theorem map_some_filterMap_id (l : List (Option Addr)) (h : ∀ o ∈ l, o ≠ none) :
    (l.filterMap id).map some = l := by
  induction l with
  | nil => rfl
  | cons o l ih =>
    cases o with
    | none => exact absurd rfl (h none (List.mem_cons_self _ _))
    | some t =>
      have := ih (fun o ho => h o (List.mem_cons_of_mem _ ho))
      simp [this]

theorem toAttackInner_eq (w : Heap) (name : String) (adjs : List (Option Addr)) :
    ∀ acc, toAttackInner w name adjs acc
      = acc ++ (adjs.filterMap id).filter (fun a => decide ((w a).owner ≠ name)) := by
  induction adjs with
  | nil => intro acc; simp [toAttackInner]
  | cons o adjs ih =>
    intro acc
    cases o with
    | none => simp [toAttackInner, ih]
    | some a =>
      by_cases hne : (w a).owner = name
      · simp [toAttackInner, ih, hne]
      · simp [toAttackInner, ih, hne]

theorem toAttackLoop_eq (w : Heap) (name : String) (l : List (Option Addr)) :
    ∀ acc, toAttackLoop w name l acc
      = acc ++ (l.filterMap id).flatMap (enemyNeighbours w name) := by
  induction l with
  | nil => intro acc; simp [toAttackLoop]
  | cons o l ih =>
    intro acc
    cases o with
    | none => simp [toAttackLoop, ih]
    | some t => simp [toAttackLoop, ih, toAttackInner_eq, enemyNeighbours]

theorem advanceLoop_eq (self : Addr) (owned : List (Option Addr)) (targets : List Addr) :
    ∀ q, advanceLoop self owned targets q = q ++ advanceOrders self owned targets := by
  induction targets with
  | nil => intro q; cases owned <;> simp [advanceLoop, advanceOrders]
  | cons t targets ih =>
    intro q
    cases owned with
    | nil => simpa [advanceLoop, advanceFromFirst, advanceOrders] using ih q
    | cons src os =>
      rw [advanceLoop, ih]
      simp [advanceFromFirst, advanceOrders, addOrder]

/-! ### The rankings in closed form -/

theorem toDefend_of_present (S : StdSort) (w : Heap) (p : Player)
    (h : ∀ o ∈ p.ownedTerritories, o ≠ none) :
    toDefend S w p = some (S.sort (armyLess w) (qualifyingOwned w p)) := by
  unfold toDefend qualifyingOwned
  conv_lhs => rw [← map_some_filterMap_id p.ownedTerritories h]
  rw [toDefendLoop_map_some]
  simp

theorem present_of_toDefend (S : StdSort) (w : Heap) (p : Player) (r : List Addr)
    (h : toDefend S w p = some r) : ∀ o ∈ p.ownedTerritories, o ≠ none := by
  intro o ho hn
  subst hn
  have := toDefendLoop_none w p.name p.ownedTerritories [] ho
  simp [toDefend, this] at h

theorem toDefend_eq_some (S : StdSort) (w : Heap) (p : Player) (r : List Addr)
    (h : toDefend S w p = some r) : r = S.sort (armyLess w) (qualifyingOwned w p) := by
  have := toDefend_of_present S w p (present_of_toDefend S w p r h)
  rw [h] at this
  exact Option.some.inj this

theorem toAttack_eq (S : StdSort) (w : Heap) (p : Player) :
    toAttack S w p = S.sort (armyLess w) (attackPairs w p) := by
  simp [toAttack, attackPairs, toAttackLoop_eq]

theorem enemyNeighbours_nil_of_not_qualifies (w : Heap) (name : String) (t : Addr)
    (h : ¬ DefendQualifies w name t) : enemyNeighbours w name t = [] := by
  unfold enemyNeighbours
  rw [List.filter_eq_nil_iff]
  intro a ha hd
  apply h
  refine Or.inr ⟨some a, ?_, a, rfl, of_decide_eq_true hd⟩
  simpa using ha

theorem attackPairs_nil_of_qualifying_nil (w : Heap) (p : Player)
    (h : qualifyingOwned w p = []) : attackPairs w p = [] := by
  unfold attackPairs
  unfold qualifyingOwned at h
  rw [List.filter_eq_nil_iff] at h
  rw [List.flatMap_eq_nil_iff]
  intro t ht
  exact enemyNeighbours_nil_of_not_qualifies w p.name t (fun hq => h t ht (decide_eq_true hq))

theorem getElem?_of_pairwise {R : Addr → Addr → Prop} {l : List Addr} (h : l.Pairwise R)
    (i j : Nat) (a b : Addr) (hij : i < j) (ha : l[i]? = some a) (hb : l[j]? = some b) :
    R a b := by
  obtain ⟨hi, rfl⟩ := List.getElem?_eq_some.mp ha
  obtain ⟨hj, rfl⟩ := List.getElem?_eq_some.mp hb
  exact List.pairwise_iff_getElem.mp h i j hi hj hij

theorem sort_armies_pairwise (S : StdSort) (w : Heap) (l : List Addr) :
    (S.sort (armyLess w) l).Pairwise (fun a b => (w a).armies ≤ (w b).armies) := by
  refine (S.sorted _ (strictWeak_armyLess w) l).imp ?_
  intro a b h
  simpa [armyLess] using h

/-! ### The sort of libstdc++ on a short range -/

namespace Libstdcxx

theorem unguardedLinearInsert_eq (lt : Addr → Addr → Bool) (x : Addr) :
    ∀ (fuel : Nat) (P T : List Addr) (y : Addr), P.length ≤ fuel →
      (∃ b ∈ P, lt x b = false) →
      unguardedLinearInsert lt x fuel (P ++ y :: T) P.length
        = (List.orderedInsert (fun a b => lt a b = false) x P.reverse).reverse ++ T := by
  intro fuel
  induction fuel with
  | zero =>
    intro P T y hlen hex
    obtain ⟨b, hb, _⟩ := hex
    have : P = [] := List.length_eq_zero.mp (Nat.le_zero.mp hlen)
    subst this
    simp at hb
  | succ fuel ih =>
    intro P T y hlen hex
    rcases List.eq_nil_or_concat P with rfl | ⟨P', b, hP⟩
    · obtain ⟨b, hb, _⟩ := hex
      simp at hb
    · rw [List.concat_eq_append] at hP
      subst hP
      have hget : (P' ++ [b] ++ y :: T).getD ((P' ++ [b]).length - 1) 0 = b := by
        have h1 : (P' ++ [b]).length - 1 = P'.length := by simp
        rw [h1, List.append_assoc, List.getD_eq_getElem?_getD,
          List.getElem?_append_right (le_refl _)]
        simp
      have hset : ∀ v, (P' ++ [b] ++ y :: T).set (P' ++ [b]).length v = P' ++ b :: v :: T := by
        intro v
        simp [List.set_append]
      rw [unguardedLinearInsert, hget]
      by_cases hx : lt x b = true
      · rw [if_pos hx, hset]
        have hlen' : P'.length ≤ fuel := by simp at hlen; omega
        have hex' : ∃ c ∈ P', lt x c = false := by
          obtain ⟨c, hc, hcx⟩ := hex
          rcases List.mem_append.mp hc with h | h
          · exact ⟨c, h, hcx⟩
          · simp at h
            subst h
            rw [hx] at hcx
            cases hcx
        have hidx : (P' ++ [b]).length - 1 = P'.length := by simp
        rw [hidx, ih P' (b :: T) b hlen' hex']
        simp [List.orderedInsert, hx]
      · rw [if_neg hx, hset]
        have hx' : lt x b = false := by simpa using hx
        simp [List.orderedInsert, hx']

theorem orderedInsert_of_all_lt (lt : Addr → Addr → Bool) (x : Addr) (L : List Addr)
    (h : ∀ b ∈ L, lt x b = true) :
    List.orderedInsert (fun a b => lt a b = false) x L = L ++ [x] := by
  induction L with
  | nil => rfl
  | cons b L ih =>
    have hb : lt x b = true := h b (List.mem_cons_self _ _)
    have := ih (fun c hc => h c (List.mem_cons_of_mem _ hc))
    simp [List.orderedInsert, hb, this]

theorem descending_total (lt : Addr → Addr → Bool) (h : StrictWeak lt) :
    IsTotal Addr (fun a b => lt a b = false) :=
  ⟨fun a b => by
    cases hab : lt a b
    · exact Or.inl rfl
    · cases hba : lt b a
      · exact Or.inr rfl
      · have := h.trans a b a hab hba
        rw [h.irrefl a] at this
        exact absurd this (by decide)⟩

theorem descending_trans (lt : Addr → Addr → Bool) (h : StrictWeak lt) :
    IsTrans Addr (fun a b => lt a b = false) :=
  ⟨fun a b c hab hbc => h.incomp a b c hab hbc⟩

theorem insertionStep_eq (lt : Addr → Addr → Bool) (h : StrictWeak lt) (P R : List Addr)
    (x : Addr) (hP : P ≠ []) (hs : P.reverse.Sorted (fun a b => lt a b = false)) :
    (if lt ((P ++ x :: R).getD P.length 0) ((P ++ x :: R).getD 0 0) then
        (P ++ x :: R).take 0 ++ (P ++ x :: R).getD P.length 0
          :: ((P ++ x :: R).take P.length).drop 0 ++ (P ++ x :: R).drop (P.length + 1)
      else unguardedLinearInsert lt ((P ++ x :: R).getD P.length 0) (P ++ x :: R).length
        (P ++ x :: R) P.length)
      = (List.orderedInsert (fun a b => lt a b = false) x P.reverse).reverse ++ R := by
  have hx : (P ++ x :: R).getD P.length 0 = x := by
    rw [List.getD_eq_getElem?_getD, List.getElem?_append_right (le_refl _)]
    simp
  obtain ⟨p0, P', rfl⟩ := List.exists_cons_of_ne_nil hP
  have h0 : (p0 :: P' ++ x :: R).getD 0 0 = p0 := rfl
  rw [hx, h0]
  by_cases hlt : lt x p0 = true
  · rw [if_pos hlt]
    have hall : ∀ b ∈ (p0 :: P').reverse, lt x b = true := by
      intro b hb
      rcases List.mem_cons.mp (List.mem_reverse.mp hb) with rfl | hb'
      · exact hlt
      · have hle : lt b p0 = false := by
          have hpw := List.pairwise_reverse.mp hs
          exact (List.pairwise_cons.mp hpw).1 b hb'
        cases hxb : lt x b
        · have := h.incomp x b p0 hxb hle
          rw [hlt] at this
          cases this
        · rfl
    rw [orderedInsert_of_all_lt lt x _ hall]
    simp
  · rw [if_neg hlt]
    have hlt' : lt x p0 = false := by simpa using hlt
    have := unguardedLinearInsert_eq lt x (p0 :: P' ++ x :: R).length (p0 :: P') R x
      (by simp) ⟨p0, List.mem_cons_self _ _, hlt'⟩
    exact this

theorem insertionSortLoop_eq (lt : Addr → Addr → Bool) (h : StrictWeak lt) :
    ∀ (k : Nat) (P R : List Addr), P ≠ [] → P.reverse.Sorted (fun a b => lt a b = false) →
      k ≤ R.length →
      insertionSortLoop lt 0 k (P ++ R) P.length
        = ((R.take k).foldl (fun acc x => List.orderedInsert (fun a b => lt a b = false) x acc)
            P.reverse).reverse ++ R.drop k := by
  intro k
  induction k with
  | zero => intro P R _ _ _; simp [insertionSortLoop]
  | succ k ih =>
    intro P R hP hs hk
    cases R with
    | nil => simp at hk
    | cons x R =>
      haveI := descending_total lt h
      haveI := descending_trans lt h
      have hstep := insertionStep_eq lt h P R x hP hs
      have hlen : ((List.orderedInsert (fun a b => lt a b = false) x P.reverse).reverse).length
          = P.length + 1 := by
        simp [List.orderedInsert_length]
      have hs' : ((List.orderedInsert (fun a b => lt a b = false) x P.reverse).reverse).reverse.Sorted
          (fun a b => lt a b = false) := by
        rw [List.reverse_reverse]
        exact hs.orderedInsert x _
      have hne : (List.orderedInsert (fun a b => lt a b = false) x P.reverse).reverse ≠ [] := by
        intro hnil
        rw [hnil] at hlen
        simp at hlen
      have hnext := ih _ R hne hs' (by simpa using hk)
      rw [hlen, List.reverse_reverse] at hnext
      rw [insertionSortLoop]
      split
      · rename_i hc
        rw [if_pos hc] at hstep
        rw [hstep, hnext]
        simp
      · rename_i hc
        rw [if_neg hc] at hstep
        rw [hstep, hnext]
        simp

theorem sort_short (lt : Addr → Addr → Bool) (h : StrictWeak lt) (l : List Addr)
    (hl : l.length ≤ 16) :
    sort lt l = (List.insertionSort (fun a b => lt a b = false) l.reverse).reverse := by
  cases l with
  | nil => rfl
  | cons x rest =>
    have hn : ¬ 16 < (x :: rest).length - 0 := by simpa using hl
    have hloop := insertionSortLoop_eq lt h rest.length [x] rest (by simp)
      (List.sorted_singleton x) (le_refl _)
    have hfold : ∀ (L acc : List Addr),
        L.foldl (fun acc x => List.orderedInsert (fun a b => lt a b = false) x acc) acc
          = L.reverse.foldr (List.orderedInsert (fun a b => lt a b = false)) acc := by
      intro L acc
      rw [List.foldr_reverse]
    have hins : ∀ L : List Addr, List.insertionSort (fun a b => lt a b = false) L
        = L.foldr (List.orderedInsert (fun a b => lt a b = false)) [] := by
      intro L
      induction L with
      | nil => rfl
      | cons a L ih => simp [List.insertionSort, ih]
    simp only [sort, List.length_cons, Nat.add_one_ne_zero, if_false, introsortLoop,
      finalInsertionSort, insertionSort]
    have hn' : ¬ 16 < rest.length + 1 - 0 := by simpa using hl
    simp only [hn', if_false]
    have hz : ¬ (0 = rest.length + 1) := by omega
    simp only [hz, if_false]
    have hidx : rest.length + 1 - (0 + 1) = rest.length := by omega
    rw [hidx]
    have hloop' : insertionSortLoop lt 0 rest.length (x :: rest) (0 + 1) = _ := hloop
    rw [hloop', hins, List.take_length, List.drop_length, hfold]
    simp

end Libstdcxx

theorem libstdcxxChecked_short (lt : Addr → Addr → Bool) (h : StrictWeak lt) (l : List Addr)
    (hl : l.length ≤ 16) :
    libstdcxxChecked lt l
      = (List.insertionSort (fun a b => lt a b = false) l.reverse).reverse := by
  haveI := Libstdcxx.descending_total lt h
  haveI := Libstdcxx.descending_trans lt h
  unfold libstdcxxChecked
  rw [Libstdcxx.sort_short lt h l hl]
  split
  · rfl
  · rename_i hno
    exfalso
    apply hno
    constructor
    · exact (List.reverse_perm _).trans
        ((List.perm_insertionSort _ _).trans (List.reverse_perm l))
    · rw [List.pairwise_reverse]
      exact List.sorted_insertionSort (fun a b => lt a b = false) l.reverse

theorem libstdcxx_stable_short (lt : Addr → Addr → Bool) (h : StrictWeak lt) (l : List Addr)
    (hl : l.length ≤ 16) (a b : Addr) (hab : lt b a = false)
    (hsub : List.Sublist [a, b] l) : List.Sublist [a, b] (libstdcxxStdSort.sort lt l) := by
  show List.Sublist [a, b] (libstdcxxChecked lt l)
  rw [libstdcxxChecked_short lt h l hl]
  have hrev : List.Sublist [b, a] l.reverse := by
    have := List.reverse_sublist.mpr hsub
    simpa using this
  have hins : List.Sublist [b, a]
      (List.insertionSort (fun a b => lt a b = false) l.reverse) :=
    List.pair_sublist_insertionSort hab hrev
  have := List.reverse_sublist.mpr hins
  simpa using this

/-! ### Step 1 of issueOrder -/

/-- C1: when the pool is positive and `toDefend()` returns a non-empty ranking, one call of
`issueOrder` returns, appends exactly one order, a Deploy of min(pool, 5) units to the
first element of the ranking issued by this player, lowers the pool by that amount and
leaves the hand, the owned-territory list, the name and the negotiation flag as they were. -/
theorem issueOrder_deploy (S : StdSort) (w : Heap) (self : Addr) (u : Option Order) (p : Player)
    (d : Addr) (rest : List Addr)
    (hpool : 0 < p.numberOfReinforcement) (hdef : toDefend S w p = some (d :: rest)) :
    ∃ p', issueOrder S w self u p = some p' ∧
      p'.playerOrders
        = p.playerOrders ++ [Order.deployOrder (min p.numberOfReinforcement 5) (some d) self] ∧
      p'.playerOrders.length = p.playerOrders.length + 1 ∧
      p'.numberOfReinforcement = p.numberOfReinforcement - min p.numberOfReinforcement 5 ∧
      p'.playerHand = p.playerHand ∧ p'.ownedTerritories = p.ownedTerritories ∧
      p'.name = p.name ∧ p'.negotiate = p.negotiate := by
  refine ⟨_, by simp only [issueOrder, hpool, if_true, hdef]; rfl, ?_⟩
  simp [addOrder]

/-- Alice owns T1 (10 armies, bordering T2 of Bob). With pool 7 one call deploys 5 units to
T1 and leaves pool 2 and a queue of length 1; with pool 3 it deploys 3 and leaves 0. -/
theorem issueOrder_deploy_witness :
    ((0 : Int) < (alice 7 []).numberOfReinforcement ∧
      toDefend insertionStdSort sampleMap (alice 7 []) = some [1] ∧
      ∃ p', issueOrder insertionStdSort sampleMap 100 none (alice 7 []) = some p' ∧
        p'.playerOrders = [Order.deployOrder 5 (some 1) 100] ∧
        p'.playerOrders.length = 1 ∧ p'.numberOfReinforcement = 2 ∧ p'.playerHand = []) ∧
    ((0 : Int) < (alice 3 []).numberOfReinforcement ∧
      ∃ p', issueOrder insertionStdSort sampleMap 100 none (alice 3 []) = some p' ∧
        p'.playerOrders = [Order.deployOrder 3 (some 1) 100] ∧
        p'.numberOfReinforcement = 0) := by
  refine ⟨⟨by decide, by decide, ?_⟩, by decide, ?_⟩
  · obtain ⟨p', h, ho, hl, hn, hh, _⟩ :=
      issueOrder_deploy insertionStdSort sampleMap 100 none (alice 7 []) 1 [] (by decide) (by decide)
    exact ⟨p', h, ho.trans (by decide), hl.trans (by decide), hn.trans (by decide), hh⟩
  · obtain ⟨p', h, ho, _, hn, _⟩ :=
      issueOrder_deploy insertionStdSort sampleMap 100 none (alice 3 []) 1 [] (by decide) (by decide)
    exact ⟨p', h, ho.trans (by decide), hn.trans (by decide)⟩

/-! ### hasMoreOrders -/

/-- C2: for a player whose owned-territory list has no absent entry, `hasMoreOrders()`
returns, and returns true exactly when pool > 0, or pool > 0 and `toDefend()` is non-empty,
or pool > 0 and `toAttack()` is non-empty, or the hand is non-empty; that is, exactly when
pool > 0 or the hand is non-empty. -/
theorem hasMoreOrders_iff (S : StdSort) (w : Heap) (p : Player)
    (hpresent : ∀ o ∈ p.ownedTerritories, o ≠ none) :
    ∃ dl b, toDefend S w p = some dl ∧ hasMoreOrders S w p = some b ∧
      (b = true ↔ (0 < p.numberOfReinforcement ∨ (0 < p.numberOfReinforcement ∧ dl ≠ []) ∨
        (0 < p.numberOfReinforcement ∧ toAttack S w p ≠ []) ∨ p.playerHand ≠ [])) ∧
      (b = true ↔ (0 < p.numberOfReinforcement ∨ p.playerHand ≠ [])) := by
  have hd := toDefend_of_present S w p hpresent
  refine ⟨_, _, hd, by simp only [hasMoreOrders, hd]; rfl, ?_, ?_⟩
  · simp only [Bool.or_eq_true, Bool.and_eq_true, Bool.not_eq_true', List.isEmpty_eq_false,
      decide_eq_true_eq, ne_eq]
    tauto
  · simp only [Bool.or_eq_true, Bool.and_eq_true, Bool.not_eq_true', List.isEmpty_eq_false,
      decide_eq_true_eq, ne_eq]
    tauto

/-- Carol has pool 0, an empty hand and owns T3 (2 armies, no neighbour): T3 is in
`toDefend()`, yet `hasMoreOrders()` is false. -/
theorem hasMoreOrders_iff_witness :
    (∀ o ∈ carol.ownedTerritories, o ≠ none) ∧
    toDefend insertionStdSort sampleMap carol = some [3] ∧
    hasMoreOrders insertionStdSort sampleMap carol = some false ∧
    ∃ dl b, toDefend insertionStdSort sampleMap carol = some dl ∧
      hasMoreOrders insertionStdSort sampleMap carol = some b ∧
      (b = true ↔ (0 < carol.numberOfReinforcement ∨
        (0 < carol.numberOfReinforcement ∧ dl ≠ []) ∨
        (0 < carol.numberOfReinforcement ∧ toAttack insertionStdSort sampleMap carol ≠ []) ∨
        carol.playerHand ≠ [])) ∧
      (b = true ↔ (0 < carol.numberOfReinforcement ∨ carol.playerHand ≠ [])) :=
  ⟨by decide, by decide, by decide,
    hasMoreOrders_iff insertionStdSort sampleMap carol (by decide)⟩

/-! ### The rankings -/

/-- C3: for a player whose owned-territory list has no absent entry, `toDefend()` returns a
permutation of the sub-list of the owned list made of the territories with fewer than 5
armies or with a non-absent adjacency entry owned by someone else; a territory is in the
result exactly when it is owned and qualifies, so nothing outside the owned list appears
and an absent adjacency entry never makes a territory qualify. -/
theorem toDefend_perm_qualifying (S : StdSort) (w : Heap) (p : Player)
    (hpresent : ∀ o ∈ p.ownedTerritories, o ≠ none) :
    ∃ r, toDefend S w p = some r ∧ r.Perm (qualifyingOwned w p) ∧
      ∀ t, t ∈ r ↔ (some t ∈ p.ownedTerritories ∧
        ((w t).armies < 5 ∨ ∃ adj ∈ (w t).adjacent, ∃ a ∈ adj, (w a).owner ≠ p.name)) := by
  have hperm := S.perm _ (strictWeak_armyLess w) (qualifyingOwned w p)
  refine ⟨_, toDefend_of_present S w p hpresent, hperm, ?_⟩
  intro t
  rw [hperm.mem_iff]
  simp [qualifyingOwned, DefendQualifies]

/-- Alice owns T1 with 10 armies and the neighbour T2 of Bob: `toDefend()` is [T1]. -/
theorem toDefend_perm_qualifying_witness :
    (∀ o ∈ (alice 7 []).ownedTerritories, o ≠ none) ∧
    qualifyingOwned sampleMap (alice 7 []) = [1] ∧
    ∃ r, toDefend insertionStdSort sampleMap (alice 7 []) = some r ∧
      r.Perm (qualifyingOwned sampleMap (alice 7 [])) ∧
      ∀ t, t ∈ r ↔ (some t ∈ (alice 7 []).ownedTerritories ∧
        ((sampleMap t).armies < 5 ∨
          ∃ adj ∈ (sampleMap t).adjacent, ∃ a ∈ adj, (sampleMap a).owner ≠ (alice 7 []).name)) :=
  ⟨by decide, by decide,
    toDefend_perm_qualifying insertionStdSort sampleMap (alice 7 []) (by decide)⟩

/-- C4: `toAttack()` is a permutation of the concatenation, over the owned territories in
order, of their non-absent adjacency entries owned by someone else. Its length is the
number of such (owned territory, neighbour) pairs and every territory occurs in it as
often as it was collected: Erin, whose T6 and T7 both border T8 of Bob, gets T8 twice. -/
theorem toAttack_perm_pairs (S : StdSort) (w : Heap) (p : Player) :
    (toAttack S w p).Perm (attackPairs w p) ∧
    (toAttack S w p).length
      = ((p.ownedTerritories.filterMap id).map
          (fun t => (enemyNeighbours w p.name t).length)).sum ∧
    (∀ a, (toAttack S w p).count a = (attackPairs w p).count a) ∧
    toAttack S sampleMap erin = [8, 8] := by
  have hperm : ∀ w p, (toAttack S w p).Perm (attackPairs w p) := by
    intro w p
    rw [toAttack_eq]
    exact S.perm _ (strictWeak_armyLess w) _
  refine ⟨hperm w p, ?_, fun a => (hperm w p).count_eq a, ?_⟩
  · rw [(hperm w p).length_eq, attackPairs, List.length_flatMap]
    rfl
  · have h := hperm sampleMap erin
    have he : attackPairs sampleMap erin = List.replicate 2 8 := by decide
    rw [he] at h
    exact List.perm_replicate.mp h

/-- C5: for a player whose owned-territory list has no absent entry, the list `toDefend()`
returns and the list `toAttack()` returns are sorted non-decreasing by army count: the
entry at position i has at most as many armies as the entry at a later position j. -/
theorem rankings_sorted (S : StdSort) (w : Heap) (p : Player)
    (hpresent : ∀ o ∈ p.ownedTerritories, o ≠ none) :
    (∃ r, toDefend S w p = some r ∧
      ∀ (i j : Nat) (a b : Addr), i < j → r[i]? = some a → r[j]? = some b → (w a).armies ≤ (w b).armies) ∧
    (∀ (i j : Nat) (a b : Addr), i < j → (toAttack S w p)[i]? = some a → (toAttack S w p)[j]? = some b →
      (w a).armies ≤ (w b).armies) := by
  refine ⟨⟨_, toDefend_of_present S w p hpresent, ?_⟩, ?_⟩
  · intro i j a b hij ha hb
    exact getElem?_of_pairwise (sort_armies_pairwise S w _) i j a b hij ha hb
  · intro i j a b hij ha hb
    exact getElem?_of_pairwise (sort_armies_pairwise S w _) i j a b hij ha hb

/-- Erin: `toDefend()` is [T6, T7] and `toAttack()` is [T8, T8], both sorted. -/
theorem rankings_sorted_witness :
    (∀ o ∈ erin.ownedTerritories, o ≠ none) ∧
    toDefend insertionStdSort sampleMap erin = some [6, 7] ∧
    ((∃ r, toDefend insertionStdSort sampleMap erin = some r ∧
      ∀ (i j : Nat) (a b : Addr), i < j → r[i]? = some a → r[j]? = some b →
        (sampleMap a).armies ≤ (sampleMap b).armies) ∧
    (∀ (i j : Nat) (a b : Addr), i < j → (toAttack insertionStdSort sampleMap erin)[i]? = some a →
      (toAttack insertionStdSort sampleMap erin)[j]? = some b →
      (sampleMap a).armies ≤ (sampleMap b).armies)) :=
  ⟨by decide, by decide, rankings_sorted insertionStdSort sampleMap erin (by decide)⟩

set_option maxRecDepth 100000

/-- C6, as stated, fails: Gina owns 17 territories of 3 armies each, collected in the
order T1, .., T17. The `std::sort` of libstdc++ moves the middle entry to the front and
swaps the others pairwise in its partition step, and `toDefend()` returns T9, T17, T16,
.., T10, T1, T8, .., T2, which is not the stable sort of the collected list. -/
theorem toDefend_stable_counterexample :
    toDefendLoop tiedMap gina.name gina.ownedTerritories [] = some [1, 2, 3, 4, 5, 6, 7, 8, 9, 10, 11, 12, 13, 14, 15, 16, 17] ∧
    (∀ t ∈ [1, 2, 3, 4, 5, 6, 7, 8, 9, 10, 11, 12, 13, 14, 15, 16, 17], (tiedMap t).armies = 3) ∧
    Libstdcxx.sort (armyLess tiedMap) [1, 2, 3, 4, 5, 6, 7, 8, 9, 10, 11, 12, 13, 14, 15, 16, 17]
      = [9, 17, 16, 15, 14, 13, 12, 11, 10, 1, 8, 7, 6, 5, 4, 3, 2] ∧
    toDefend libstdcxxStdSort tiedMap gina
      = some [9, 17, 16, 15, 14, 13, 12, 11, 10, 1, 8, 7, 6, 5, 4, 3, 2] ∧
    toDefend libstdcxxStdSort tiedMap gina
      ≠ some (List.insertionSort
          (fun a b => (tiedMap a).armies ≤ (tiedMap b).armies)
          [1, 2, 3, 4, 5, 6, 7, 8, 9, 10, 11, 12, 13, 14, 15, 16, 17]) := by
  decide

/-- C6, amended: for every `std::sort` the entries of `toDefend()` (of `toAttack()`) with a
given army count are a permutation of the collected entries with that count, so ties are
kept as a group while their relative order is left to the sort. With a stable sort such
as insertion sort from the front, two collected entries a before b with equal army counts
stay in that order in the result; the `std::sort` of libstdc++ is such a sort on a
ranking of at most 16 entries. -/
theorem rankings_tie_groups (S : StdSort) (w : Heap) (p : Player)
    (hpresent : ∀ o ∈ p.ownedTerritories, o ≠ none) :
    (∃ c r r', toDefendLoop w p.name p.ownedTerritories [] = some c ∧
      toDefend S w p = some r ∧ toDefend insertionStdSort w p = some r' ∧
      (∀ k, (r.filter (fun t => decide ((w t).armies = k))).Perm
        (c.filter (fun t => decide ((w t).armies = k)))) ∧
      (∀ a b, (w a).armies = (w b).armies → List.Sublist [a, b] c → List.Sublist [a, b] r')) ∧
    (∀ k, ((toAttack S w p).filter (fun t => decide ((w t).armies = k))).Perm
      ((toAttackLoop w p.name p.ownedTerritories []).filter
        (fun t => decide ((w t).armies = k)))) ∧
    (∀ a b, (w a).armies = (w b).armies →
      List.Sublist [a, b] (toAttackLoop w p.name p.ownedTerritories []) →
      List.Sublist [a, b] (toAttack insertionStdSort w p)) ∧
    (∃ c r, toDefendLoop w p.name p.ownedTerritories [] = some c ∧
      toDefend libstdcxxStdSort w p = some r ∧
      (c.length ≤ 16 → ∀ a b, (w a).armies = (w b).armies →
        List.Sublist [a, b] c → List.Sublist [a, b] r)) ∧
    ((toAttackLoop w p.name p.ownedTerritories []).length ≤ 16 →
      ∀ a b, (w a).armies = (w b).armies →
        List.Sublist [a, b] (toAttackLoop w p.name p.ownedTerritories []) →
        List.Sublist [a, b] (toAttack libstdcxxStdSort w p)) := by
  have hc : toDefendLoop w p.name p.ownedTerritories [] = some (qualifyingOwned w p) := by
    have := toDefendLoop_map_some w p.name (p.ownedTerritories.filterMap id) []
    rw [map_some_filterMap_id p.ownedTerritories hpresent] at this
    simpa [qualifyingOwned] using this
  have hstable : ∀ (l : List Addr) (a b : Addr), (w a).armies = (w b).armies →
      List.Sublist [a, b] l → List.Sublist [a, b] (insertionStdSort.sort (armyLess w) l) := by
    intro l a b hab hsub
    refine List.pair_sublist_insertionSort ?_ hsub
    simp [armyLess, hab]
  have hshort : ∀ (l : List Addr) (a b : Addr), l.length ≤ 16 →
      (w a).armies = (w b).armies → List.Sublist [a, b] l →
      List.Sublist [a, b] (libstdcxxStdSort.sort (armyLess w) l) := by
    intro l a b hl hab hsub
    exact libstdcxx_stable_short (armyLess w) (strictWeak_armyLess w) l hl a b
      (by simp [armyLess, hab]) hsub
  refine ⟨⟨_, _, _, hc, toDefend_of_present S w p hpresent,
    toDefend_of_present insertionStdSort w p hpresent, ?_, ?_⟩, ?_, ?_,
    ⟨_, _, hc, toDefend_of_present libstdcxxStdSort w p hpresent, ?_⟩, ?_⟩
  · intro k
    exact (S.perm _ (strictWeak_armyLess w) _).filter _
  · intro a b hab hsub
    exact hstable _ a b hab hsub
  · intro k
    exact (S.perm _ (strictWeak_armyLess w) _).filter _
  · intro a b hab hsub
    exact hstable _ a b hab hsub
  · intro hl a b hab hsub
    exact hshort _ a b hl hab hsub
  · intro hl a b hab hsub
    exact hshort _ a b hl hab hsub

/-- Gina with the `std::sort` of libstdc++: the 17 tied territories are all returned, as
one group, in another order than collected; insertion sort keeps the collected order, and
so does libstdc++ for the two tied territories of Dana. -/
theorem rankings_tie_groups_witness :
    (∀ o ∈ gina.ownedTerritories, o ≠ none) ∧
    toDefend libstdcxxStdSort tiedMap gina
      = some [9, 17, 16, 15, 14, 13, 12, 11, 10, 1, 8, 7, 6, 5, 4, 3, 2] ∧
    toDefend insertionStdSort tiedMap gina
      = some [1, 2, 3, 4, 5, 6, 7, 8, 9, 10, 11, 12, 13, 14, 15, 16, 17] ∧
    toDefend libstdcxxStdSort sampleMap dana = some [4, 5] ∧
    ∃ c r r', toDefendLoop tiedMap gina.name gina.ownedTerritories [] = some c ∧
      toDefend libstdcxxStdSort tiedMap gina = some r ∧
      toDefend insertionStdSort tiedMap gina = some r' ∧
      (∀ k, (r.filter (fun t => decide ((tiedMap t).armies = k))).Perm
        (c.filter (fun t => decide ((tiedMap t).armies = k)))) ∧
      (∀ a b, (tiedMap a).armies = (tiedMap b).armies →
        List.Sublist [a, b] c → List.Sublist [a, b] r') :=
  ⟨by decide, by decide, by decide, by decide,
    (rankings_tie_groups libstdcxxStdSort tiedMap gina (by decide)).1⟩

/-! ### Steps 2, 3 and 4 of issueOrder -/

theorem advanceOrders_nil (self : Addr) (owned : List (Option Addr)) :
    advanceOrders self owned [] = [] := by
  cases owned <;> rfl

theorem issueOrderRest_eq (S : StdSort) (w : Heap) (self : Addr)
    (u : Option Order) (p : Player) (dl : List Addr)
    (hdef : toDefend S w p = some dl) :
    issueOrderRest S w self u p
      = playCard S w self u { p with playerOrders := (p.playerOrders
          ++ advanceOrders self p.ownedTerritories dl
          ++ advanceOrders self p.ownedTerritories (toAttack S w p)) } := by
  have h2 : defenceAdvance self dl p
      = { p with playerOrders := p.playerOrders ++ advanceOrders self p.ownedTerritories dl } := by
    unfold defenceAdvance
    split
    · rename_i he
      rw [List.isEmpty_iff.mp he, advanceOrders_nil, List.append_nil]
    · rw [advanceLoop_eq]
  have h3 : ∀ q : Player, attackAdvance S w self q
      = { q with playerOrders := (q.playerOrders
          ++ advanceOrders self q.ownedTerritories (toAttack S w q)) } := by
    intro q
    unfold attackAdvance
    split
    · rename_i he
      rw [List.isEmpty_iff.mp he, advanceOrders_nil, List.append_nil]
    · rw [advanceLoop_eq]
  simp only [issueOrderRest, hdef, h2, h3]
  rfl

theorem issueOrder_eq_rest (S : StdSort) (w : Heap) (self : Addr)
    (u : Option Order) (p : Player) (dl : List Addr)
    (hdef : toDefend S w p = some dl) (hreach : 0 < p.numberOfReinforcement → dl = []) :
    issueOrder S w self u p = issueOrderRest S w self u p := by
  unfold issueOrder
  split
  · rename_i hpool
    rw [hdef, hreach hpool]
  · rfl

theorem playCard_nil (S : StdSort) (w : Heap) (self : Addr) (u : Option Order) (q : Player)
    (h : q.playerHand = []) : playCard S w self u q = some q := by
  simp [playCard, h]

theorem playCard_reinforcement (S : StdSort) (w : Heap) (self : Addr) (u : Option Order)
    (q : Player) (c : Card) (rest : List Card) (h : q.playerHand = c :: rest)
    (ht : c.cardType = "Reinforcement") :
    playCard S w self u q = some { q with playerHand := rest } := by
  simp [playCard, h, ht, removeCard]

theorem playCard_pointer (S : StdSort) (w : Heap) (self : Addr) (u : Option Order)
    (q : Player) (c : Card) (rest : List Card) (pointer : Option Order)
    (h : q.playerHand = c :: rest) (ht : c.cardType ≠ "Reinforcement")
    (hs : specialOrder S w self u q c = some pointer) :
    playCard S w self u q
      = some { q with playerOrders := addIfSet q.playerOrders pointer, playerHand := rest } := by
  simp [playCard, h, ht, hs, removeCard]

theorem playCard_special (S : StdSort) (w : Heap) (self : Addr) (u : Option Order)
    (q : Player) (c : Card) (rest : List Card) (o : Order) (h : q.playerHand = c :: rest)
    (ht : c.cardType ≠ "Reinforcement") (hs : specialOrder S w self u q c = some (some o)) :
    playCard S w self u q
      = some { q with playerOrders := q.playerOrders ++ [o], playerHand := rest } :=
  playCard_pointer S w self u q c rest (some o) h ht hs

theorem playCard_undefined (S : StdSort) (w : Heap) (self : Addr) (u : Option Order)
    (q : Player) (c : Card) (rest : List Card) (h : q.playerHand = c :: rest)
    (ht : c.cardType ≠ "Reinforcement") (hs : specialOrder S w self u q c = none) :
    playCard S w self u q = none := by
  simp [playCard, h, ht, hs]

theorem playCard_some (S : StdSort) (w : Heap) (self : Addr) (u : Option Order)
    (q q' : Player) (h : playCard S w self u q = some q') :
    ∃ cardOrders : List Order, cardOrders.length ≤ 1 ∧
      q'.playerOrders = q.playerOrders ++ cardOrders ∧ q'.playerHand = q.playerHand.tail ∧
      q'.numberOfReinforcement = q.numberOfReinforcement ∧
      q'.ownedTerritories = q.ownedTerritories ∧ q'.name = q.name ∧
      q'.negotiate = q.negotiate := by
  cases hh : q.playerHand with
  | nil =>
    rw [playCard_nil S w self u q hh] at h
    cases h
    exact ⟨[], by simp, by simp, by simp [hh], rfl, rfl, rfl, rfl⟩
  | cons c rest =>
    by_cases ht : c.cardType = "Reinforcement"
    · rw [playCard_reinforcement S w self u q c rest hh ht] at h
      cases h
      exact ⟨[], by simp, by simp, by simp [hh], rfl, rfl, rfl, rfl⟩
    · cases hs : specialOrder S w self u q c with
      | none =>
        rw [playCard_undefined S w self u q c rest hh ht hs] at h
        cases h
      | some pointer =>
        rw [playCard_pointer S w self u q c rest pointer hh ht hs] at h
        cases h
        cases pointer with
        | none => exact ⟨[], by simp, by simp [addIfSet], by simp [hh], rfl, rfl, rfl, rfl⟩
        | some o => exact ⟨[o], by simp, rfl, by simp [hh], rfl, rfl, rfl, rfl⟩

theorem playCard_isSome (S : StdSort) (w : Heap) (self : Addr) (u : Option Order)
    (p : Player) (orders : List Order) :
    (playCard S w self u { p with playerOrders := orders }).isSome
      = (playCard S w self u p).isSome := by
  obtain hh | ⟨c, rest, hh⟩ : p.playerHand = [] ∨ ∃ c rest, p.playerHand = c :: rest := by
    cases p.playerHand <;> simp
  · rw [playCard_nil S w self u { p with playerOrders := orders } hh,
      playCard_nil S w self u p hh]
    rfl
  · by_cases ht : c.cardType = "Reinforcement"
    · rw [playCard_reinforcement S w self u { p with playerOrders := orders } c rest hh ht,
        playCard_reinforcement S w self u p c rest hh ht]
      rfl
    · have hs : specialOrder S w self u { p with playerOrders := orders } c
          = specialOrder S w self u p c := rfl
      cases hso : specialOrder S w self u p c with
      | none =>
        rw [playCard_undefined S w self u { p with playerOrders := orders } c rest hh ht
          (hs.trans hso), playCard_undefined S w self u p c rest hh ht hso]
      | some pointer =>
        rw [playCard_pointer S w self u { p with playerOrders := orders } c rest pointer hh ht
          (hs.trans hso), playCard_pointer S w self u p c rest pointer hh ht hso]
        rfl

theorem owned_ne_nil_of_toDefend (S : StdSort) (w : Heap) (p : Player) (dl : List Addr)
    (hdef : toDefend S w p = some dl) (hne : dl ≠ []) : p.ownedTerritories ≠ [] := by
  intro h
  have := toDefend_eq_some S w p dl hdef
  rw [qualifyingOwned, h] at this
  exact hne (this.trans (sort_nil S w))

theorem toAttack_nil_of_toDefend_nil (S : StdSort) (w : Heap) (p : Player)
    (hdef : toDefend S w p = some []) : toAttack S w p = [] := by
  have h := (toDefend_eq_some S w p [] hdef).symm
  rw [sort_eq_nil] at h
  rw [toAttack_eq, attackPairs_nil_of_qualifying_nil w p h]
  exact sort_nil S w

/-- C8: a player with pool 3 and no territory, so with an empty `toDefend()` ranking. The
call does not return after the warning of step 1: it reaches the card step with the pool
still at 3. A Reinforcement card is taken out of the hand; a card with an unknown tag is
taken out too and the unassigned pointer, unless null, is appended to the queue; for a
Bomb card `front()` is taken of the empty `toAttack()`. -/
theorem issueOrder_failed_deploy_consumes_card :
    0 < (landless 3 [⟨1, "Reinforcement"⟩]).numberOfReinforcement ∧
    toDefend insertionStdSort sampleMap (landless 3 [⟨1, "Reinforcement"⟩]) = some [] ∧
    (∀ u, issueOrder insertionStdSort sampleMap 100 u (landless 3 [⟨1, "Reinforcement"⟩])
      = some (landless 3 [])) ∧
    (landless 3 []).playerHand ≠ (landless 3 [⟨1, "Reinforcement"⟩]).playerHand ∧
    (∀ u, issueOrder insertionStdSort sampleMap 100 u (landless 3 [⟨1, "Joker"⟩])
      = some { landless 3 [] with playerOrders := addIfSet [] u }) ∧
    (∀ u, issueOrder insertionStdSort sampleMap 100 u (landless 3 [⟨1, "Bomb"⟩]) = none) := by
  refine ⟨by decide, by decide, ?_, by decide, ?_, ?_⟩
  · intro u
    rfl
  · intro u
    rfl
  · intro u
    rfl

/-- C9: with pool 0, an owned-territory list that starts with `src` and a non-empty
`toDefend()` ranking d1..dn, whenever `issueOrder` returns, the orders it appended begin
with the n Advance orders of 1 unit from `src` to d1, .., dn, issued by this player, in
ranking order, and the pool is unchanged. The call returns exactly when its card step
does, in particular when the hand is empty. -/
theorem issueOrder_defence_advance (S : StdSort) (w : Heap) (self : Addr)
    (u : Option Order) (p : Player)
    (src : Option Addr) (os : List (Option Addr)) (dl : List Addr)
    (hpool : p.numberOfReinforcement = 0) (howned : p.ownedTerritories = src :: os)
    (hdef : toDefend S w p = some dl) (hne : dl ≠ []) :
    dl.map (fun d => Order.advanceOrder 1 src (some d) self) ≠ [] ∧
    (∀ p', issueOrder S w self u p = some p' →
      ∃ later : List Order,
        p'.playerOrders
          = p.playerOrders ++ dl.map (fun d => Order.advanceOrder 1 src (some d) self)
            ++ later ∧
        p'.numberOfReinforcement = p.numberOfReinforcement) ∧
    (issueOrder S w self u p).isSome = (playCard S w self u p).isSome ∧
    (p.playerHand = [] → ∃ p', issueOrder S w self u p = some p') := by
  have hstep : issueOrder S w self u p = playCard S w self u { p with playerOrders :=
      (p.playerOrders ++ advanceOrders self p.ownedTerritories dl
        ++ advanceOrders self p.ownedTerritories (toAttack S w p)) } := by
    rw [issueOrder_eq_rest S w self u p dl hdef (fun h => absurd h (by omega)),
      issueOrderRest_eq S w self u p dl hdef]
  have hadv : advanceOrders self p.ownedTerritories dl
      = dl.map (fun d => Order.advanceOrder 1 src (some d) self) := by
    rw [howned]
    rfl
  refine ⟨by simpa using hne, ?_, ?_, ?_⟩
  · intro p' h
    rw [hstep] at h
    obtain ⟨cardOrders, _, ho, _, hn, _⟩ := playCard_some S w self u _ p' h
    refine ⟨advanceOrders self p.ownedTerritories (toAttack S w p) ++ cardOrders, ?_, hn⟩
    rw [ho, ← hadv]
    simp
  · rw [hstep]
    exact playCard_isSome S w self u p _
  · intro hh
    rw [hstep]
    exact ⟨_, playCard_nil S w self u _ hh⟩

/-- Dana (pool 0, empty hand) owns T4 and T5, both in `toDefend()`: the call appends an
Advance from T4 to T4 and one from T4 to T5. -/
theorem issueOrder_defence_advance_witness :
    dana.numberOfReinforcement = 0 ∧ dana.ownedTerritories = some 4 :: [some 5] ∧
    toDefend insertionStdSort sampleMap dana = some [4, 5] ∧
    issueOrder insertionStdSort sampleMap 300 none dana
      = some { dana with playerOrders :=
          [Order.advanceOrder 1 (some 4) (some 4) 300,
           Order.advanceOrder 1 (some 4) (some 5) 300] } ∧
    ∀ p', issueOrder insertionStdSort sampleMap 300 none dana = some p' →
      ∃ later : List Order,
        p'.playerOrders
          = dana.playerOrders ++ [4, 5].map (fun d => Order.advanceOrder 1 (some 4) (some d) 300)
            ++ later ∧
        p'.numberOfReinforcement = dana.numberOfReinforcement :=
  ⟨by decide, by decide, by decide, by decide,
    (issueOrder_defence_advance insertionStdSort sampleMap 300 none dana (some 4) [some 5] [4, 5]
      (by decide) (by decide) (by decide) (by decide)).2.1⟩

/-- C10, as stated, fails: T2 has no owning-player object, Alice (pool 0) holds a Diplomacy
card and `toAttack()` is [T2]. The call builds a Negotiate order with an absent second
player and appends it after the two Advance orders. -/
theorem issueOrder_diplomacy_counterexample :
    (alice 0 [⟨1, "Diplomacy"⟩]).playerHand.head? = some ⟨1, "Diplomacy"⟩ ∧
    toAttack insertionStdSort orphanMap (alice 0 [⟨1, "Diplomacy"⟩]) = [2] ∧
    (orphanMap 2).ownerPlayer = none ∧
    issueOrder insertionStdSort orphanMap 100 none (alice 0 [⟨1, "Diplomacy"⟩])
      = some { alice 0 [] with playerOrders :=
          [Order.advanceOrder 1 (some 1) (some 1) 100,
           Order.advanceOrder 1 (some 1) (some 2) 100,
           Order.negotiateOrder 100 none] } := by
  decide

/-- C10, amended: when the card step is reached (the deploy step did not return), the
first card is a Diplomacy card and `toAttack()` is non-empty with first element t, the
call returns, appends after the Advance orders of steps 2 and 3 exactly one Negotiate
order, between this player and the owning-player pointer of t, be it present or absent,
and removes the card from the hand. -/
theorem issueOrder_diplomacy (S : StdSort) (w : Heap) (self : Addr) (u : Option Order) (p : Player)
    (dl : List Addr) (c : Card) (rest : List Card) (t : Addr) (ts : List Addr)
    (hdef : toDefend S w p = some dl) (hreach : 0 < p.numberOfReinforcement → dl = [])
    (hhand : p.playerHand = c :: rest) (htype : c.cardType = "Diplomacy")
    (hatk : toAttack S w p = t :: ts) :
    issueOrder S w self u p = some { p with
      playerOrders := (p.playerOrders ++ advanceOrders self p.ownedTerritories dl
        ++ advanceOrders self p.ownedTerritories (t :: ts)
        ++ [Order.negotiateOrder self (w t).ownerPlayer]),
      playerHand := rest } := by
  have ht : c.cardType ≠ "Reinforcement" := by
    rw [htype]
    decide
  have hs : ∀ orders : List Order,
      specialOrder S w self u { p with playerOrders := orders } c
        = some (some (Order.negotiateOrder self (w t).ownerPlayer)) := by
    intro orders
    show specialOrder S w self u p c = _
    unfold specialOrder
    simp [htype, hatk]
  rw [issueOrder_eq_rest S w self u p dl hdef hreach, issueOrderRest_eq S w self u p dl hdef,
    hatk]
  exact playCard_special S w self u _ c rest _ hhand ht (hs _)

/-- Alice (pool 0) with a Diplomacy card on the map where T2 belongs to the player object
of Bob at address 200: the Negotiate order names 100 and 200. -/
theorem issueOrder_diplomacy_witness :
    toDefend insertionStdSort sampleMap (alice 0 [⟨1, "Diplomacy"⟩]) = some [1] ∧
    toAttack insertionStdSort sampleMap (alice 0 [⟨1, "Diplomacy"⟩]) = [2] ∧
    issueOrder insertionStdSort sampleMap 100 none (alice 0 [⟨1, "Diplomacy"⟩])
      = some { alice 0 [] with playerOrders :=
          [Order.advanceOrder 1 (some 1) (some 1) 100,
           Order.advanceOrder 1 (some 1) (some 2) 100,
           Order.negotiateOrder 100 (some 200)] } :=
  ⟨by decide, by decide,
    (issueOrder_diplomacy insertionStdSort sampleMap 100 none (alice 0 [⟨1, "Diplomacy"⟩]) [1]
      ⟨1, "Diplomacy"⟩ [] 2 [] (by decide) (by decide) rfl rfl (by decide)).trans (by decide)⟩

/-! ### Step 4 of issueOrder -/

theorem issueOrder_eq_playCard (S : StdSort) (w : Heap) (self : Addr)
    (u : Option Order) (p : Player)
    (dl : List Addr) (hdef : toDefend S w p = some dl)
    (hreach : 0 < p.numberOfReinforcement → dl = []) :
    issueOrder S w self u p = playCard S w self u { p with playerOrders := (p.playerOrders
      ++ advanceOrders self p.ownedTerritories dl
      ++ advanceOrders self p.ownedTerritories (toAttack S w p)) } := by
  rw [issueOrder_eq_rest S w self u p dl hdef hreach, issueOrderRest_eq S w self u p dl hdef]

theorem issueOrder_card_discarded (S : StdSort) (w : Heap) (self : Addr)
    (u : Option Order) (p p' : Player)
    (dl : List Addr) (hdef : toDefend S w p = some dl)
    (hreach : 0 < p.numberOfReinforcement → dl = [])
    (h : issueOrder S w self u p = some p') : p'.playerHand = p.playerHand.tail := by
  rw [issueOrder_eq_playCard S w self u p dl hdef hreach] at h
  obtain ⟨_, _, _, hh, _⟩ := playCard_some S w self u _ p' h
  exact hh

/-- C11: the card step is reached with a non-empty hand, `front()` is taken of an empty
vector and the call never gets to the removal of the card. A player without territory
has empty `toDefend()` and `toAttack()` rankings: with a Bomb card first `toAttack()` is
the empty vector (with pool 0, and with pool 3 after the warning of step 1), with an
Airlift or a Blockade card first `toDefend()` is. This holds whatever the unassigned
pointer would be. -/
theorem issueOrder_card_step_undefined :
    toDefend insertionStdSort sampleMap (landless 0 [⟨1, "Bomb"⟩]) = some [] ∧
    toAttack insertionStdSort sampleMap (landless 0 [⟨1, "Bomb"⟩]) = [] ∧
    (∀ u, issueOrder insertionStdSort sampleMap 100 u (landless 0 [⟨1, "Bomb"⟩]) = none) ∧
    (∀ u, issueOrder insertionStdSort sampleMap 100 u (landless 3 [⟨1, "Bomb"⟩]) = none) ∧
    (∀ u, issueOrder insertionStdSort sampleMap 100 u (landless 0 [⟨1, "Airlift"⟩]) = none) ∧
    (∀ u, issueOrder insertionStdSort sampleMap 100 u (landless 0 [⟨1, "Blockade"⟩]) = none) := by
  refine ⟨by decide, by decide, ?_, ?_, ?_, ?_⟩
  · intro u
    rfl
  · intro u
    rfl
  · intro u
    rfl
  · intro u
    rfl

/-- C12: with pool 0 and the first card c consulted, the call returns and the last order
it appends is the single card order: for a Bomb card and `toAttack()` = t :: _, a Bomb
order against t; for an Airlift card, a first owned territory src and `toDefend()` =
d :: _, an Airlift order of 5 units from src to d; for a Blockade card and `toDefend()`
= d :: _, a Blockade order against d with a newly made player named "Neutral". The card
leaves the hand. -/
theorem issueOrder_card_dispatch (S : StdSort) (w : Heap) (self : Addr)
    (u : Option Order) (p : Player)
    (dl : List Addr) (c : Card) (rest : List Card)
    (hpool : p.numberOfReinforcement = 0) (hdef : toDefend S w p = some dl)
    (hhand : p.playerHand = c :: rest) :
    (∀ t ts, c.cardType = "Bomb" → toAttack S w p = t :: ts →
      issueOrder S w self u p = some { p with
        playerOrders := (p.playerOrders ++ advanceOrders self p.ownedTerritories dl
          ++ advanceOrders self p.ownedTerritories (t :: ts)
          ++ [Order.bombOrder (some t) self]),
        playerHand := rest }) ∧
    (∀ src os d ds, c.cardType = "Airlift" → p.ownedTerritories = src :: os → dl = d :: ds →
      issueOrder S w self u p = some { p with
        playerOrders := (p.playerOrders ++ advanceOrders self p.ownedTerritories dl
          ++ advanceOrders self p.ownedTerritories (toAttack S w p)
          ++ [Order.airliftOrder 5 src (some d) self]),
        playerHand := rest }) ∧
    (∀ d ds, c.cardType = "Blockade" → dl = d :: ds →
      issueOrder S w self u p = some { p with
        playerOrders := (p.playerOrders ++ advanceOrders self p.ownedTerritories dl
          ++ advanceOrders self p.ownedTerritories (toAttack S w p)
          ++ [Order.blockadeOrder 5 self "Neutral" (some d)]),
        playerHand := rest }) := by
  have hstep := issueOrder_eq_playCard S w self u p dl hdef (fun h => absurd h (by omega))
  refine ⟨?_, ?_, ?_⟩
  · intro t ts htype hatk
    have ht : c.cardType ≠ "Reinforcement" := by rw [htype]; decide
    have hs : ∀ orders : List Order,
        specialOrder S w self u { p with playerOrders := orders } c
          = some (some (Order.bombOrder (some t) self)) := by
      intro orders
      show specialOrder S w self u p c = _
      unfold specialOrder
      simp [htype, hatk]
    rw [hstep, hatk]
    exact playCard_special S w self u _ c rest _ hhand ht (hs _)
  · intro src os d ds htype howned hdl
    have ht : c.cardType ≠ "Reinforcement" := by rw [htype]; decide
    have hs : ∀ orders : List Order,
        specialOrder S w self u { p with playerOrders := orders } c
          = some (some (Order.airliftOrder 5 src (some d) self)) := by
      intro orders
      show specialOrder S w self u p c = _
      unfold specialOrder
      simp [htype, howned, hdef, hdl]
    rw [hstep]
    exact playCard_special S w self u _ c rest _ hhand ht (hs _)
  · intro d ds htype hdl
    have ht : c.cardType ≠ "Reinforcement" := by rw [htype]; decide
    have hs : ∀ orders : List Order,
        specialOrder S w self u { p with playerOrders := orders } c
          = some (some (Order.blockadeOrder 5 self "Neutral" (some d))) := by
      intro orders
      show specialOrder S w self u p c = _
      unfold specialOrder
      simp [htype, hdef, hdl]
    rw [hstep]
    exact playCard_special S w self u _ c rest _ hhand ht (hs _)

/-- Alice (pool 0, T1 bordering T2 of Bob) with a Bomb, an Airlift and a Blockade card:
after the two Advance orders come the Bomb order on T2, the Airlift of 5 units from T1 to
T1, the Blockade of T1. -/
theorem issueOrder_card_dispatch_witness :
    (alice 0 [⟨1, "Bomb"⟩]).numberOfReinforcement = 0 ∧
    toDefend insertionStdSort sampleMap (alice 0 [⟨1, "Bomb"⟩]) = some [1] ∧
    issueOrder insertionStdSort sampleMap 100 none (alice 0 [⟨1, "Bomb"⟩])
      = some { alice 0 [] with playerOrders :=
          [Order.advanceOrder 1 (some 1) (some 1) 100,
           Order.advanceOrder 1 (some 1) (some 2) 100,
           Order.bombOrder (some 2) 100] } ∧
    issueOrder insertionStdSort sampleMap 100 none (alice 0 [⟨2, "Airlift"⟩])
      = some { alice 0 [] with playerOrders :=
          [Order.advanceOrder 1 (some 1) (some 1) 100,
           Order.advanceOrder 1 (some 1) (some 2) 100,
           Order.airliftOrder 5 (some 1) (some 1) 100] } ∧
    issueOrder insertionStdSort sampleMap 100 none (alice 0 [⟨3, "Blockade"⟩])
      = some { alice 0 [] with playerOrders :=
          [Order.advanceOrder 1 (some 1) (some 1) 100,
           Order.advanceOrder 1 (some 1) (some 2) 100,
           Order.blockadeOrder 5 100 "Neutral" (some 1)] } :=
  ⟨by decide, by decide,
    ((issueOrder_card_dispatch insertionStdSort sampleMap 100 none (alice 0 [⟨1, "Bomb"⟩]) [1]
      ⟨1, "Bomb"⟩ [] (by decide) (by decide) rfl).1 2 [] rfl (by decide)).trans (by decide),
    ((issueOrder_card_dispatch insertionStdSort sampleMap 100 none (alice 0 [⟨2, "Airlift"⟩]) [1]
      ⟨2, "Airlift"⟩ [] (by decide) (by decide) rfl).2.1 (some 1) [] 1 [] rfl rfl rfl).trans
        (by decide),
    ((issueOrder_card_dispatch insertionStdSort sampleMap 100 none (alice 0 [⟨3, "Blockade"⟩]) [1]
      ⟨3, "Blockade"⟩ [] (by decide) (by decide) rfl).2.2 1 [] rfl rfl).trans (by decide)⟩

/-- C13: with pool 0, empty `toDefend()` and `toAttack()` rankings and a Reinforcement
card first in the hand, the call returns with that card removed from the hand and the
queue, the pool and every other member unchanged. -/
theorem issueOrder_reinforcement_card (S : StdSort) (w : Heap) (self : Addr)
    (u : Option Order) (p : Player)
    (c : Card) (rest : List Card)
    (hpool : p.numberOfReinforcement = 0) (hdef : toDefend S w p = some [])
    (hatk : toAttack S w p = []) (hhand : p.playerHand = c :: rest)
    (htype : c.cardType = "Reinforcement") :
    issueOrder S w self u p = some { p with playerHand := rest } ∧
    ∀ p', issueOrder S w self u p = some p' →
      p'.playerOrders = p.playerOrders ∧ p'.numberOfReinforcement = 0 ∧
      p'.playerHand = rest ∧ p'.playerHand.length + 1 = p.playerHand.length := by
  have hstep : issueOrder S w self u p = some { p with playerHand := rest } := by
    rw [issueOrder_eq_playCard S w self u p [] hdef (fun _ => rfl), hatk]
    simp only [advanceOrders_nil, List.append_nil]
    exact playCard_reinforcement S w self u p c rest hhand htype
  refine ⟨hstep, ?_⟩
  intro p' h
  rw [hstep] at h
  cases h
  exact ⟨rfl, hpool, rfl, by simp [hhand]⟩

/-- The landless player with pool 0 and a Reinforcement card followed by a Bomb card:
only the Reinforcement card goes. -/
theorem issueOrder_reinforcement_card_witness :
    (landless 0 [⟨1, "Reinforcement"⟩, ⟨2, "Bomb"⟩]).numberOfReinforcement = 0 ∧
    toDefend insertionStdSort sampleMap (landless 0 [⟨1, "Reinforcement"⟩, ⟨2, "Bomb"⟩])
      = some [] ∧
    toAttack insertionStdSort sampleMap (landless 0 [⟨1, "Reinforcement"⟩, ⟨2, "Bomb"⟩]) = [] ∧
    issueOrder insertionStdSort sampleMap 100 none (landless 0 [⟨1, "Reinforcement"⟩, ⟨2, "Bomb"⟩])
      = some (landless 0 [⟨2, "Bomb"⟩]) :=
  ⟨by decide, by decide, by decide,
    (issueOrder_reinforcement_card insertionStdSort sampleMap 100 none
      (landless 0 [⟨1, "Reinforcement"⟩, ⟨2, "Bomb"⟩]) ⟨1, "Reinforcement"⟩ [⟨2, "Bomb"⟩]
      (by decide) (by decide) (by decide) rfl rfl).1⟩

/-! ### Constructors and setters -/

theorem hasMoreOrders_of_present (S : StdSort) (w : Heap) (p : Player)
    (hpresent : ∀ o ∈ p.ownedTerritories, o ≠ none) :
    hasMoreOrders S w p
      = some (decide (0 < p.numberOfReinforcement) || !p.playerHand.isEmpty) := by
  simp only [hasMoreOrders, toDefend_of_present S w p hpresent]
  congr 1
  cases decide (0 < p.numberOfReinforcement) <;> simp

theorem foldl_addTerritory (ts : List Addr) :
    ∀ p : Player, ts.foldl (fun q t => addTerritory q (some t)) p
      = { p with ownedTerritories := p.ownedTerritories ++ ts.map some } := by
  induction ts with
  | nil => intro p; simp
  | cons t ts ih =>
    intro p
    rw [List.foldl_cons, ih]
    simp [addTerritory]

/-- C14: a player made by either constructor has pool 0, an empty hand, an empty queue, no
owned territory and a false negotiation flag, and after any sequence of `addTerritory`
calls, on any map, `hasMoreOrders()` returns false for it. -/
theorem hasMoreOrders_fresh (S : StdSort) (w : Heap) (name : String) (ts : List Addr) :
    (defaultPlayer.numberOfReinforcement = 0 ∧ defaultPlayer.playerHand = [] ∧
      defaultPlayer.playerOrders = [] ∧ defaultPlayer.ownedTerritories = [] ∧
      defaultPlayer.negotiate = false) ∧
    ((namedPlayer name).numberOfReinforcement = 0 ∧ (namedPlayer name).playerHand = [] ∧
      (namedPlayer name).playerOrders = [] ∧ (namedPlayer name).ownedTerritories = [] ∧
      (namedPlayer name).negotiate = false ∧ (namedPlayer name).name = name) ∧
    hasMoreOrders S w (ts.foldl (fun q t => addTerritory q (some t)) defaultPlayer)
      = some false ∧
    hasMoreOrders S w (ts.foldl (fun q t => addTerritory q (some t)) (namedPlayer name))
      = some false := by
  refine ⟨⟨rfl, rfl, rfl, rfl, rfl⟩, ⟨rfl, rfl, rfl, rfl, rfl, rfl⟩, ?_, ?_⟩
  · rw [foldl_addTerritory, hasMoreOrders_of_present]
    · rfl
    · intro o ho
      simp [defaultPlayer] at ho
      obtain ⟨t, _, rfl⟩ := ho
      simp
  · rw [foldl_addTerritory, hasMoreOrders_of_present]
    · rfl
    · intro o ho
      simp [namedPlayer] at ho
      obtain ⟨t, _, rfl⟩ := ho
      simp

theorem issueOrder_deploy_eq (S : StdSort) (w : Heap) (self : Addr) (u : Option Order) (p : Player)
    (d : Addr) (rest : List Addr)
    (hpool : 0 < p.numberOfReinforcement) (hdef : toDefend S w p = some (d :: rest)) :
    issueOrder S w self u p = some { p with
      numberOfReinforcement := p.numberOfReinforcement - min p.numberOfReinforcement 5,
      playerOrders := (p.playerOrders
        ++ [Order.deployOrder (min p.numberOfReinforcement 5) (some d) self]) } := by
  simp only [issueOrder, hpool, if_true, hdef]
  rfl

theorem issueOrder_none_of_toDefend_none (S : StdSort) (w : Heap) (self : Addr)
    (u : Option Order) (p : Player)
    (hdef : toDefend S w p = none) : issueOrder S w self u p = none := by
  unfold issueOrder issueOrderRest
  split <;> simp [hdef]

theorem issueOrder_some_cases (S : StdSort) (w : Heap) (self : Addr)
    (u : Option Order) (p p' : Player)
    (h : issueOrder S w self u p = some p') :
    (∃ d rest, 0 < p.numberOfReinforcement ∧ toDefend S w p = some (d :: rest) ∧
      p' = { p with
        numberOfReinforcement := p.numberOfReinforcement - min p.numberOfReinforcement 5,
        playerOrders := (p.playerOrders
          ++ [Order.deployOrder (min p.numberOfReinforcement 5) (some d) self]) }) ∨
    (∃ dl, toDefend S w p = some dl ∧ (0 < p.numberOfReinforcement → dl = []) ∧
      playCard S w self u { p with playerOrders := (p.playerOrders
        ++ advanceOrders self p.ownedTerritories dl
        ++ advanceOrders self p.ownedTerritories (toAttack S w p)) } = some p') := by
  cases hdef : toDefend S w p with
  | none =>
    rw [issueOrder_none_of_toDefend_none S w self u p hdef] at h
    cases h
  | some dl =>
    by_cases hreach : 0 < p.numberOfReinforcement → dl = []
    · right
      refine ⟨dl, rfl, hreach, ?_⟩
      rw [← issueOrder_eq_playCard S w self u p dl hdef hreach]
      exact h
    · left
      have hpool : 0 < p.numberOfReinforcement := by
        by_contra hn
        exact hreach (fun hp => absurd hp hn)
      cases dl with
      | nil => exact absurd (fun _ => rfl) hreach
      | cons d rest =>
        rw [issueOrder_deploy_eq S w self u p d rest hpool hdef] at h
        exact ⟨d, rest, hpool, rfl, (Option.some.inj h).symm⟩

theorem issueOrder_appends (S : StdSort) (w : Heap) (self : Addr) (u : Option Order) (p p' : Player)
    (h : issueOrder S w self u p = some p') :
    ∃ added : List Order, p'.playerOrders = p.playerOrders ++ added := by
  rcases issueOrder_some_cases S w self u p p' h with ⟨d, rest, _, _, rfl⟩ | ⟨dl, _, _, hc⟩
  · exact ⟨_, rfl⟩
  · obtain ⟨cardOrders, _, ho, _⟩ := playCard_some S w self u _ p' hc
    refine ⟨advanceOrders self p.ownedTerritories dl
      ++ advanceOrders self p.ownedTerritories (toAttack S w p) ++ cardOrders, ?_⟩
    rw [ho]
    simp

theorem issueOrder_pool_nonneg (S : StdSort) (w : Heap) (self : Addr)
    (u : Option Order) (p p' : Player)
    (hp : 0 ≤ p.numberOfReinforcement) (h : issueOrder S w self u p = some p') :
    0 ≤ p'.numberOfReinforcement := by
  rcases issueOrder_some_cases S w self u p p' h with ⟨d, rest, _, _, rfl⟩ | ⟨dl, _, _, hc⟩
  · show 0 ≤ p.numberOfReinforcement - min p.numberOfReinforcement 5
    have := min_le_left p.numberOfReinforcement 5
    omega
  · obtain ⟨_, _, _, _, hn, _⟩ := playCard_some S w self u _ p' hc
    rw [hn]
    exact hp

/-- C17, as stated, fails: `setNumberOfReinforcement(-3)` on a freshly constructed player
leaves a negative pool. -/
theorem pool_nonneg_counterexample :
    0 ≤ defaultPlayer.numberOfReinforcement ∧
    (setNumberOfReinforcement defaultPlayer (-3)).numberOfReinforcement = -3 ∧
    (setNumberOfReinforcement defaultPlayer (-3)).numberOfReinforcement < 0 := by
  decide

/-- C17, amended: the pool of a freshly constructed player is 0, and a pool that is not
negative stays so through `issueOrder` (whenever it returns), `addTerritory`,
`removeTerritory`, `setName`, `setNegotiate`, the copy constructor and the assignment.
`setNumberOfReinforcement(n)` stores n as it is given, so after it the pool is
non-negative exactly when n is. -/
theorem pool_nonneg_preserved (p : Player) (h : 0 ≤ p.numberOfReinforcement) :
    defaultPlayer.numberOfReinforcement = 0 ∧
    (∀ name, (namedPlayer name).numberOfReinforcement = 0) ∧
    (∀ S w self u p', issueOrder S w self u p = some p' → 0 ≤ p'.numberOfReinforcement) ∧
    (∀ t, 0 ≤ (addTerritory p t).numberOfReinforcement) ∧
    (∀ t, 0 ≤ (removeTerritory p t).numberOfReinforcement) ∧
    (∀ name, 0 ≤ (setName p name).numberOfReinforcement) ∧
    (∀ status, 0 ≤ (setNegotiate p status).numberOfReinforcement) ∧
    (∀ n, (setNumberOfReinforcement p n).numberOfReinforcement = n ∧
      (0 ≤ (setNumberOfReinforcement p n).numberOfReinforcement ↔ 0 ≤ n)) ∧
    (∀ A m (other : PlayerObj) r, 0 ≤ other.numberOfReinforcement →
      copyConstruct A m other = some r → 0 ≤ r.2.numberOfReinforcement) ∧
    (∀ A m thisAddr (this : PlayerObj) otherAddr (other : PlayerObj) r,
      0 ≤ this.numberOfReinforcement → 0 ≤ other.numberOfReinforcement →
      assign A m thisAddr this otherAddr other = some r → 0 ≤ r.2.numberOfReinforcement) := by
  refine ⟨rfl, fun _ => rfl, ?_, fun _ => h, fun _ => h, fun _ => h, fun _ => h,
    fun n => ⟨rfl, Iff.rfl⟩, ?_, ?_⟩
  · intro S w self u p' hi
    exact issueOrder_pool_nonneg S w self u p p' h hi
  · intro A m other r ho hc
    unfold copyConstruct at hc
    cases hr : readList m other.playerOrders with
    | none => simp [hr] at hc
    | some source =>
      simp only [hr] at hc
      cases hc
      exact ho
  · intro A m thisAddr this otherAddr other r ht ho ha
    unfold assign at ha
    split at ha
    · cases h1 : readList m this.playerOrders with
      | none => simp [h1] at ha
      | some q =>
        cases h2 : readList (deleteList m this.playerOrders) other.playerOrders with
        | none => simp [h1, h2] at ha
        | some source =>
          simp only [h1, h2] at ha
          cases ha
          exact ho
    · cases ha
      exact ht

/-- Alice with pool 7: after one call of `issueOrder` the pool is 2. -/
theorem pool_nonneg_preserved_witness :
    0 ≤ (alice 7 []).numberOfReinforcement ∧
    ∀ p', issueOrder insertionStdSort sampleMap 100 none (alice 7 []) = some p' →
      0 ≤ p'.numberOfReinforcement :=
  ⟨by decide, fun p' =>
    (pool_nonneg_preserved (alice 7 []) (by decide)).2.2.1 insertionStdSort sampleMap 100 none p'⟩

/-- C18, as stated, fails: adding T1 twice to a freshly constructed player gives an owned
list with T1 in it twice. -/
theorem ownedTerritories_nodup_counterexample :
    (addTerritory (addTerritory defaultPlayer (some 1)) (some 1)).ownedTerritories
      = [some 1, some 1] ∧
    ¬ (addTerritory (addTerritory defaultPlayer (some 1)) (some 1)).ownedTerritories.Nodup := by
  decide

/-- C18, amended: `addTerritory(t)` appends t whether or not it is owned already, so the
owned list of a freshly constructed player (empty) stays free of duplicates exactly as
long as no territory is added while it is owned. `removeTerritory(t)` takes out every
occurrence of t, keeps the other entries with their multiplicity and relative order,
and keeps a duplicate-free list duplicate-free. -/
theorem ownedTerritories_add_remove (p : Player) (t : Option Addr) :
    defaultPlayer.ownedTerritories = [] ∧
    (addTerritory p t).ownedTerritories = p.ownedTerritories ++ [t] ∧
    ((addTerritory p t).ownedTerritories.Nodup
      ↔ p.ownedTerritories.Nodup ∧ t ∉ p.ownedTerritories) ∧
    (removeTerritory p t).ownedTerritories
      = p.ownedTerritories.filter (fun x => decide (x ≠ t)) ∧
    t ∉ (removeTerritory p t).ownedTerritories ∧
    (∀ x, x ≠ t →
      (removeTerritory p t).ownedTerritories.count x = p.ownedTerritories.count x) ∧
    List.Sublist (removeTerritory p t).ownedTerritories p.ownedTerritories ∧
    (p.ownedTerritories.Nodup → (removeTerritory p t).ownedTerritories.Nodup) := by
  have hrem : (removeTerritory p t).ownedTerritories
      = p.ownedTerritories.filter (fun x => decide (x ≠ t)) := by
    simp only [removeTerritory]
    congr 1
    funext x
    by_cases hx : x = t <;> simp [bne, hx]
  refine ⟨rfl, rfl, ?_, hrem, ?_, ?_, ?_, ?_⟩
  · simp only [addTerritory]
    rw [List.nodup_append]
    simp only [List.nodup_singleton, List.Disjoint, List.mem_singleton]
    constructor
    · rintro ⟨hn, _, hd⟩
      exact ⟨hn, fun hm => hd hm rfl⟩
    · rintro ⟨hn, hm⟩
      exact ⟨hn, trivial, fun a ha hat => hm (hat ▸ ha)⟩
  · rw [hrem]
    simp [List.mem_filter]
  · intro x hx
    rw [hrem, List.count_filter]
    simpa using hx
  · rw [hrem]
    exact List.filter_sublist _
  · intro hn
    rw [hrem]
    exact hn.filter _

/-! ### Attack targets and defend targets -/

theorem defenceAdvance_eq (self : Addr) (dl : List Addr) (p : Player) :
    defenceAdvance self dl p
      = { p with playerOrders := p.playerOrders ++ advanceOrders self p.ownedTerritories dl } := by
  unfold defenceAdvance
  split
  · rename_i he
    rw [List.isEmpty_iff.mp he, advanceOrders_nil, List.append_nil]
  · rw [advanceLoop_eq]

theorem attackAdvance_eq (S : StdSort) (w : Heap) (self : Addr) (q : Player) :
    attackAdvance S w self q
      = { q with playerOrders := (q.playerOrders
          ++ advanceOrders self q.ownedTerritories (toAttack S w q)) } := by
  unfold attackAdvance
  split
  · rename_i he
    rw [List.isEmpty_iff.mp he, advanceOrders_nil, List.append_nil]
  · rw [advanceLoop_eq]

/-- C19: for a player whose owned-territory list has no absent entry, a non-empty
`toAttack()` comes with a non-empty `toDefend()`: every attack target is a
differently-owned neighbour of an owned territory that is in the defend ranking. So
within `issueOrder` step 3 appends orders only after step 2 has appended some: step 2
(`defenceAdvance`) extends the queue by a non-empty list, step 3 (`attackAdvance`) extends
that by a non-empty list, and a call with pool at most 0 that returns leaves the queue
with both lists after the old orders, before the card order if any. With a positive pool
the call returns from step 1 with one Deploy order and runs neither step. -/
theorem toAttack_nonempty_toDefend_nonempty (S : StdSort) (w : Heap) (p : Player)
    (hpresent : ∀ o ∈ p.ownedTerritories, o ≠ none) (hatk : toAttack S w p ≠ []) :
    ∃ dl, toDefend S w p = some dl ∧ dl ≠ [] ∧
      (∀ a ∈ toAttack S w p, ∃ t ∈ dl, some t ∈ p.ownedTerritories ∧
        some a ∈ (w t).adjacent ∧ (w a).owner ≠ p.name) ∧
      (∀ self, ∃ defended attacked : List Order, defended ≠ [] ∧ attacked ≠ [] ∧
        (defenceAdvance self dl p).playerOrders = p.playerOrders ++ defended ∧
        (attackAdvance S w self (defenceAdvance self dl p)).playerOrders
          = p.playerOrders ++ defended ++ attacked ∧
        (∀ u p', p.numberOfReinforcement ≤ 0 → issueOrder S w self u p = some p' →
          ∃ cardOrders : List Order,
            p'.playerOrders = p.playerOrders ++ defended ++ attacked ++ cardOrders) ∧
        (∀ u p', 0 < p.numberOfReinforcement → issueOrder S w self u p = some p' →
          ∃ d, p'.playerOrders = p.playerOrders
            ++ [Order.deployOrder (min p.numberOfReinforcement 5) (some d) self])) := by
  have hdef := toDefend_of_present S w p hpresent
  have hne : S.sort (armyLess w) (qualifyingOwned w p) ≠ [] := by
    intro h
    rw [h] at hdef
    exact hatk (toAttack_nil_of_toDefend_nil S w p hdef)
  refine ⟨_, hdef, hne, ?_, ?_⟩
  · intro a ha
    rw [toAttack_eq, (S.perm _ (strictWeak_armyLess w) _).mem_iff] at ha
    simp only [attackPairs, List.mem_flatMap, enemyNeighbours, List.mem_filter,
      List.mem_filterMap, id, decide_eq_true_eq] at ha
    obtain ⟨t, ⟨o, ho, rfl⟩, ⟨adj, hadj, rfl⟩, howner⟩ := ha
    refine ⟨t, ?_, ho, hadj, howner⟩
    rw [(S.perm _ (strictWeak_armyLess w) _).mem_iff]
    simp only [qualifyingOwned, List.mem_filter, List.mem_filterMap, id, decide_eq_true_eq]
    exact ⟨⟨some t, ho, rfl⟩, Or.inr ⟨some a, hadj, a, rfl, howner⟩⟩
  · intro self
    have ho := owned_ne_nil_of_toDefend S w p _ hdef hne
    have hd : advanceOrders self p.ownedTerritories
        (S.sort (armyLess w) (qualifyingOwned w p)) ≠ [] := by
      cases hown : p.ownedTerritories with
      | nil => exact absurd hown ho
      | cons src os => simpa [advanceOrders] using hne
    have ha : advanceOrders self p.ownedTerritories (toAttack S w p) ≠ [] := by
      cases hown : p.ownedTerritories with
      | nil => exact absurd hown ho
      | cons src os => simpa [advanceOrders] using hatk
    refine ⟨_, _, hd, ha, ?_, ?_, ?_, ?_⟩
    · rw [defenceAdvance_eq]
    · rw [attackAdvance_eq, defenceAdvance_eq]
      rfl
    · intro u p' hpool hi
      rw [issueOrder_eq_playCard S w self u p _ hdef (fun h => absurd h (by omega))] at hi
      obtain ⟨cardOrders, _, hc, _⟩ := playCard_some S w self u _ p' hi
      exact ⟨cardOrders, hc⟩
    · intro u p' hpool hi
      cases hs : S.sort (armyLess w) (qualifyingOwned w p) with
      | nil => exact absurd hs hne
      | cons d rest =>
        rw [hs] at hdef
        rw [issueOrder_deploy_eq S w self u p d rest hpool hdef] at hi
        cases hi
        exact ⟨d, rfl⟩

/-- Alice (pool 0) owns T1, which borders T2 of Bob: T2 is an attack target and T1 a
defend target, and a call appends the Advance to T1, then the Advance to T2. -/
theorem toAttack_nonempty_toDefend_nonempty_witness :
    (∀ o ∈ (alice 0 []).ownedTerritories, o ≠ none) ∧
    toAttack insertionStdSort sampleMap (alice 0 []) = [2] ∧
    toDefend insertionStdSort sampleMap (alice 0 []) = some [1] ∧
    issueOrder insertionStdSort sampleMap 100 none (alice 0 [])
      = some { alice 0 [] with playerOrders :=
          [Order.advanceOrder 1 (some 1) (some 1) 100,
           Order.advanceOrder 1 (some 1) (some 2) 100] } ∧
    ∃ dl, toDefend insertionStdSort sampleMap (alice 0 []) = some dl ∧ dl ≠ [] ∧
      (∀ a ∈ toAttack insertionStdSort sampleMap (alice 0 []),
        ∃ t ∈ dl, some t ∈ (alice 0 []).ownedTerritories ∧
          some a ∈ (sampleMap t).adjacent ∧ (sampleMap a).owner ≠ (alice 0 []).name) ∧
      (∀ self, ∃ defended attacked : List Order, defended ≠ [] ∧ attacked ≠ [] ∧
        (defenceAdvance self dl (alice 0 [])).playerOrders
          = (alice 0 []).playerOrders ++ defended ∧
        (attackAdvance insertionStdSort sampleMap self
            (defenceAdvance self dl (alice 0 []))).playerOrders
          = (alice 0 []).playerOrders ++ defended ++ attacked ∧
        (∀ u p', (alice 0 []).numberOfReinforcement ≤ 0 →
          issueOrder insertionStdSort sampleMap self u (alice 0 []) = some p' →
          ∃ cardOrders : List Order,
            p'.playerOrders = (alice 0 []).playerOrders ++ defended ++ attacked ++ cardOrders) ∧
        (∀ u p', 0 < (alice 0 []).numberOfReinforcement →
          issueOrder insertionStdSort sampleMap self u (alice 0 []) = some p' →
          ∃ d, p'.playerOrders = (alice 0 []).playerOrders
            ++ [Order.deployOrder (min (alice 0 []).numberOfReinforcement 5) (some d) self])) :=
  ⟨by decide, by decide, by decide, by decide,
    toAttack_nonempty_toDefend_nonempty insertionStdSort sampleMap (alice 0 [])
      (by decide) (by decide)⟩

/-! ### Repeated deployment -/

theorem issueOrders_succ (S : StdSort) (w : Heap) (self : Addr) (u : Option Order) (j : Nat) :
    ∀ p, issueOrders S w self u (j + 1) p
      = (issueOrders S w self u j p).bind (issueOrder S w self u) := by
  induction j with
  | zero =>
    intro p
    simp [issueOrders]
  | succ j ih =>
    intro p
    rw [issueOrders]
    cases h : issueOrder S w self u p with
    | none => simp [issueOrders, h]
    | some q =>
      rw [Option.some_bind, ih q]
      conv_rhs => rw [issueOrders, h, Option.some_bind]

theorem issueOrders_full_deploys (S : StdSort) (w : Heap) (self : Addr)
    (u : Option Order) (d : Addr)
    (rest : List Addr) (j : Nat) :
    ∀ (p : Player) (pool : Int), p.numberOfReinforcement = pool → 5 * (j : Int) < pool →
      toDefend S w p = some (d :: rest) →
      issueOrders S w self u j p = some { p with
        numberOfReinforcement := pool - 5 * (j : Int),
        playerOrders :=
          (p.playerOrders ++ List.replicate j (Order.deployOrder 5 (some d) self)) } := by
  induction j with
  | zero =>
    intro p pool hpool _ _
    cases p
    simp only [issueOrders, List.replicate_zero, List.append_nil] at *
    simp [hpool]
  | succ j ih =>
    intro p pool hpool hlt hdef
    have hpos : 0 < p.numberOfReinforcement := by rw [hpool]; push_cast at hlt; omega
    have hmin : min p.numberOfReinforcement 5 = 5 := by
      rw [hpool]
      push_cast at hlt
      exact min_eq_right (by omega)
    rw [issueOrders, issueOrder_deploy_eq S w self u p d rest hpos hdef, Option.some_bind, hmin]
    have hnext := ih { p with
        numberOfReinforcement := p.numberOfReinforcement - 5,
        playerOrders := (p.playerOrders ++ [Order.deployOrder 5 (some d) self]) }
      (pool - 5) (by simp [hpool]) (by push_cast at hlt; omega) hdef
    rw [hnext]
    simp only [List.append_assoc, List.singleton_append, List.replicate_succ]
    congr 2
    push_cast
    ring

/-- C20: a player with pool n ≥ 1 and `toDefend()` = d :: _ is called ⌈n/5⌉ times in a
row. After j < ⌈n/5⌉ calls the queue has grown by j Deploy orders of 5 units to d and
the pool is n - 5j; after the last call the queue has grown by ⌈n/5⌉ - 1 Deploy orders
of 5 units and one of n - 5(⌈n/5⌉ - 1) units (between 1 and 5), all to d, the deployed
units sum to n and the pool is 0. Hand, territories, name and flag never change. -/
theorem issueOrders_drain (S : StdSort) (w : Heap) (self : Addr)
    (u : Option Order) (p : Player) (n : Nat)
    (d : Addr) (rest : List Addr) (hn : 1 ≤ n) (hpool : p.numberOfReinforcement = n)
    (hdef : toDefend S w p = some (d :: rest)) :
    (∀ j, j < (n + 4) / 5 → issueOrders S w self u j p = some { p with
      numberOfReinforcement := (n : Int) - 5 * (j : Int),
      playerOrders :=
        (p.playerOrders ++ List.replicate j (Order.deployOrder 5 (some d) self)) }) ∧
    issueOrders S w self u ((n + 4) / 5) p = some { p with
      numberOfReinforcement := 0,
      playerOrders := (p.playerOrders
        ++ List.replicate ((n + 4) / 5 - 1) (Order.deployOrder 5 (some d) self)
        ++ [Order.deployOrder ((n : Int) - 5 * (((n + 4) / 5 - 1 : Nat) : Int)) (some d) self]) } ∧
    ((List.replicate ((n + 4) / 5 - 1) (Order.deployOrder 5 (some d) self)
        ++ [Order.deployOrder ((n : Int) - 5 * (((n + 4) / 5 - 1 : Nat) : Int)) (some d) self]).map
      deployedUnits).sum = n ∧
    0 < (n : Int) - 5 * (((n + 4) / 5 - 1 : Nat) : Int) ∧
    (n : Int) - 5 * (((n + 4) / 5 - 1 : Nat) : Int) ≤ 5 := by
  have hfull : ∀ j, j < (n + 4) / 5 → issueOrders S w self u j p = some { p with
      numberOfReinforcement := (n : Int) - 5 * (j : Int),
      playerOrders :=
        (p.playerOrders ++ List.replicate j (Order.deployOrder 5 (some d) self)) } := by
    intro j hj
    exact issueOrders_full_deploys S w self u d rest j p n hpool (by omega) hdef
  have hk : (n + 4) / 5 = ((n + 4) / 5 - 1) + 1 := by omega
  have hlow : 0 < (n : Int) - 5 * (((n + 4) / 5 - 1 : Nat) : Int) := by omega
  have hhigh : (n : Int) - 5 * (((n + 4) / 5 - 1 : Nat) : Int) ≤ 5 := by omega
  refine ⟨hfull, ?_, ?_, hlow, hhigh⟩
  · have hlast := hfull ((n + 4) / 5 - 1) (by omega)
    have hcall := issueOrder_deploy_eq S w self u { p with
        numberOfReinforcement := (n : Int) - 5 * (((n + 4) / 5 - 1 : Nat) : Int),
        playerOrders := (p.playerOrders
          ++ List.replicate ((n + 4) / 5 - 1) (Order.deployOrder 5 (some d) self)) }
      d rest hlow hdef
    simp only [min_eq_left hhigh, sub_self] at hcall
    rw [hk, issueOrders_succ, ← hk, hlast, Option.some_bind]
    exact hcall
  · simp only [List.map_append, List.map_replicate, List.sum_append, List.sum_replicate,
      deployedUnits, List.map_cons, List.map_nil, List.sum_cons, List.sum_nil, smul_eq_mul,
      nsmul_eq_mul]
    omega

/-- Alice with pool 12: three calls deploy 5, 5 and 2 units to T1 and empty the pool. -/
theorem issueOrders_drain_witness :
    (alice 12 []).numberOfReinforcement = (12 : Nat) ∧
    toDefend insertionStdSort sampleMap (alice 12 []) = some [1] ∧
    issueOrders insertionStdSort sampleMap 100 none 3 (alice 12 [])
      = some { alice 0 [] with playerOrders :=
          [Order.deployOrder 5 (some 1) 100, Order.deployOrder 5 (some 1) 100,
           Order.deployOrder 2 (some 1) 100] } :=
  ⟨by decide, by decide,
    ((issueOrders_drain insertionStdSort sampleMap 100 none (alice 12 []) 12 1 []
      (by decide) (by decide) (by decide)).2.1).trans (by decide)⟩

/-! ### Copies of a player -/

theorem readList_mem_keys (m : ListStore) (a : Addr) (q : List Order)
    (h : readList m a = some q) : a ∈ m.map Prod.fst := by
  induction m with
  | nil => simp [readList] at h
  | cons e m ih =>
    obtain ⟨b, qb⟩ := e
    by_cases hb : b = a
    · simp [hb]
    · simp only [readList, hb, if_false] at h
      simp [ih h]

theorem readList_cons_self (m : ListStore) (a : Addr) (q : List Order) :
    readList ((a, q) :: m) a = some q := by
  simp [readList]

theorem readList_cons_ne (m : ListStore) (a c : Addr) (q : List Order) (h : c ≠ a) :
    readList ((c, q) :: m) a = readList m a := by
  simp [readList, h]

theorem appendList_cons_self (m : ListStore) (a : Addr) (q : List Order) (o : Order) :
    appendList ((a, q) :: m) a o = (a, addOrder q o) :: appendList m a o := by
  simp [appendList]

theorem appendList_cons_ne (m : ListStore) (a c : Addr) (q : List Order) (o : Order)
    (h : c ≠ a) : appendList ((c, q) :: m) a o = (c, q) :: appendList m a o := by
  simp [appendList, h]

theorem deleteList_cons_self (m : ListStore) (a : Addr) (q : List Order) :
    deleteList ((a, q) :: m) a = deleteList m a := by
  simp [deleteList]

theorem deleteList_cons_ne (m : ListStore) (a c : Addr) (q : List Order) (h : c ≠ a) :
    deleteList ((c, q) :: m) a = (c, q) :: deleteList m a := by
  simp [deleteList, h]

theorem readList_appendList_ne (m : ListStore) (a b : Addr) (o : Order) (hab : a ≠ b) :
    readList (appendList m a o) b = readList m b := by
  induction m with
  | nil => rfl
  | cons e m ih =>
    obtain ⟨c, qc⟩ := e
    by_cases hc : c = a
    · subst hc
      rw [appendList_cons_self, readList_cons_ne _ _ _ _ hab, readList_cons_ne _ _ _ _ hab, ih]
    · rw [appendList_cons_ne _ _ _ _ _ hc]
      by_cases hcb : c = b
      · subst hcb
        rw [readList_cons_self, readList_cons_self]
      · rw [readList_cons_ne _ _ _ _ hcb, readList_cons_ne _ _ _ _ hcb, ih]

theorem readList_appendList_self (m : ListStore) (a : Addr) (o : Order) :
    readList (appendList m a o) a = (readList m a).map (fun q => q ++ [o]) := by
  induction m with
  | nil => rfl
  | cons e m ih =>
    obtain ⟨c, qc⟩ := e
    by_cases hc : c = a
    · subst hc
      rw [appendList_cons_self, readList_cons_self, readList_cons_self]
      rfl
    · rw [appendList_cons_ne _ _ _ _ _ hc, readList_cons_ne _ _ _ _ hc,
        readList_cons_ne _ _ _ _ hc, ih]

theorem readList_appendAll_ne (a b : Addr) (hab : a ≠ b) (added : List Order) :
    ∀ m : ListStore,
      readList (added.foldl (fun s o => appendList s a o) m) b = readList m b := by
  induction added with
  | nil => intro m; rfl
  | cons o added ih =>
    intro m
    rw [List.foldl_cons, ih, readList_appendList_ne m a b o hab]

theorem readList_appendAll_self (a : Addr) (added : List Order) :
    ∀ (m : ListStore) (q : List Order), readList m a = some q →
      readList (added.foldl (fun s o => appendList s a o) m) a = some (q ++ added) := by
  induction added with
  | nil => intro m q h; simpa using h
  | cons o added ih =>
    intro m q h
    rw [List.foldl_cons, ih (appendList m a o) (q ++ [o])]
    · simp
    · rw [readList_appendList_self, h]
      rfl

theorem readList_deleteList_ne (m : ListStore) (a b : Addr) (hab : a ≠ b) :
    readList (deleteList m a) b = readList m b := by
  induction m with
  | nil => rfl
  | cons e m ih =>
    obtain ⟨c, qc⟩ := e
    by_cases hc : c = a
    · subst hc
      rw [deleteList_cons_self, readList_cons_ne _ _ _ _ hab, ih]
    · rw [deleteList_cons_ne _ _ _ _ hc]
      by_cases hcb : c = b
      · subst hcb
        rw [readList_cons_self, readList_cons_self]
      · rw [readList_cons_ne _ _ _ _ hcb, readList_cons_ne _ _ _ _ hcb, ih]

theorem newOrderList_spec (A : Allocator) (m : ListStore) (source : List Order) :
    readList (newOrderList A m source).1 (newOrderList A m source).2 = some source ∧
    ∀ b q, readList m b = some q →
      (newOrderList A m source).2 ≠ b ∧ readList (newOrderList A m source).1 b = some q := by
  constructor
  · simp [newOrderList, readList]
  · intro b q hb
    have hne : A.fresh (m.map Prod.fst) ≠ b := by
      intro h
      exact A.fresh_not_mem (m.map Prod.fst) (h ▸ readList_mem_keys m b q hb)
    refine ⟨hne, ?_⟩
    simp only [newOrderList, readList, hne, if_false]
    exact hb

theorem newOrderList_frame (A : Allocator) (m : ListStore) (a : Addr) (qs : List Order)
    (hlive : readList m a = some qs) :
    readList (newOrderList A m qs).1 (newOrderList A m qs).2 = some qs ∧
    readList (newOrderList A m qs).1 a = some qs ∧
    (newOrderList A m qs).2 ≠ a ∧
    ∀ added : List Order,
      readList (added.foldl (fun s o => appendList s (newOrderList A m qs).2 o)
        (newOrderList A m qs).1) a = some qs ∧
      readList (added.foldl (fun s o => appendList s (newOrderList A m qs).2 o)
        (newOrderList A m qs).1) (newOrderList A m qs).2 = some (qs ++ added) := by
  obtain ⟨hnew, hold⟩ := newOrderList_spec A m qs
  obtain ⟨hne, hread⟩ := hold a qs hlive
  refine ⟨hnew, hread, hne, fun added => ⟨?_, ?_⟩⟩
  · rw [readList_appendAll_ne _ _ hne added, hread]
  · exact readList_appendAll_self _ added _ qs hnew

/-- C15: the copy constructor applied to a player P whose queue holds the orders qs
returns a player Q with the name, pool, negotiation flag, owned-territory list and hand
of P and a queue of its own, at another address, that holds qs; the assignment of P to a
different player with a queue of its own does the same. Whatever orders are then appended
through the queue pointer of Q, the queue of P still holds qs, and `issueOrder` changes a
queue only by appending to it. -/
theorem copy_independent (A : Allocator) (m : ListStore) (p : PlayerObj) (qs : List Order)
    (hlive : readList m p.playerOrders = some qs) :
    (∃ m' q, copyConstruct A m p = some (m', q) ∧
      q.name = p.name ∧ q.numberOfReinforcement = p.numberOfReinforcement ∧
      q.negotiate = p.negotiate ∧ q.ownedTerritories = p.ownedTerritories ∧
      q.playerHand = p.playerHand ∧
      readList m' q.playerOrders = some qs ∧ readList m' p.playerOrders = some qs ∧
      q.playerOrders ≠ p.playerOrders ∧
      ∀ added : List Order,
        readList (added.foldl (fun s o => appendList s q.playerOrders o) m') p.playerOrders
          = some qs ∧
        readList (added.foldl (fun s o => appendList s q.playerOrders o) m') q.playerOrders
          = some (qs ++ added)) ∧
    (∀ thisAddr (this : PlayerObj) otherAddr old, thisAddr ≠ otherAddr →
      readList m this.playerOrders = some old → this.playerOrders ≠ p.playerOrders →
      ∃ m' q, assign A m thisAddr this otherAddr p = some (m', q) ∧
        q.name = p.name ∧ q.numberOfReinforcement = p.numberOfReinforcement ∧
        q.negotiate = p.negotiate ∧ q.ownedTerritories = p.ownedTerritories ∧
        q.playerHand = p.playerHand ∧
        readList m' q.playerOrders = some qs ∧ readList m' p.playerOrders = some qs ∧
        q.playerOrders ≠ p.playerOrders ∧
        ∀ added : List Order,
          readList (added.foldl (fun s o => appendList s q.playerOrders o) m') p.playerOrders
            = some qs ∧
          readList (added.foldl (fun s o => appendList s q.playerOrders o) m') q.playerOrders
            = some (qs ++ added)) ∧
    (∀ S w self u (v v' : Player), issueOrder S w self u v = some v' →
      ∃ added : List Order, v'.playerOrders = v.playerOrders ++ added) := by
  refine ⟨?_, ?_, ?_⟩
  · obtain ⟨h1, h2, h3, h4⟩ := newOrderList_frame A m p.playerOrders qs hlive
    exact ⟨(newOrderList A m qs).1,
      { name := p.name, ownedTerritories := p.ownedTerritories, playerHand := p.playerHand,
        playerOrders := (newOrderList A m qs).2,
        numberOfReinforcement := p.numberOfReinforcement, negotiate := p.negotiate },
      by simp only [copyConstruct, hlive], rfl, rfl, rfl, rfl, rfl, h1, h2, h3, h4⟩
  · intro thisAddr this otherAddr old hne hthis hdist
    have hlive' : readList (deleteList m this.playerOrders) p.playerOrders = some qs := by
      rw [readList_deleteList_ne m _ _ hdist, hlive]
    obtain ⟨h1, h2, h3, h4⟩ :=
      newOrderList_frame A (deleteList m this.playerOrders) p.playerOrders qs hlive'
    exact ⟨(newOrderList A (deleteList m this.playerOrders) qs).1,
      { name := p.name, ownedTerritories := p.ownedTerritories, playerHand := p.playerHand,
        playerOrders := (newOrderList A (deleteList m this.playerOrders) qs).2,
        numberOfReinforcement := p.numberOfReinforcement, negotiate := p.negotiate },
      by simp only [assign, hne, ne_eq, not_false_eq_true, if_true, hthis, hlive'],
      rfl, rfl, rfl, rfl, rfl, h1, h2, h3, h4⟩
  · intro S w self u v v' h
    exact issueOrder_appends S w self u v v' h

/-- The object of Alice, whose queue at address 10 holds two orders, is copied: the copy
has its queue at address 21 with the same two orders, and a Bomb order appended there
does not reach the queue at 10. -/
theorem copy_independent_witness :
    readList sampleStore aliceObj.playerOrders = some aliceQueue ∧
    copyConstruct bumpAllocator sampleStore aliceObj
      = some ((21, aliceQueue) :: sampleStore, { aliceObj with playerOrders := 21 }) ∧
    readList (appendList ((21, aliceQueue) :: sampleStore) 21 (Order.bombOrder (some 2) 100)) 10
      = some aliceQueue ∧
    readList (appendList ((21, aliceQueue) :: sampleStore) 21 (Order.bombOrder (some 2) 100)) 21
      = some (aliceQueue ++ [Order.bombOrder (some 2) 100]) ∧
    ∃ m' q, copyConstruct bumpAllocator sampleStore aliceObj = some (m', q) ∧
      q.name = aliceObj.name ∧ q.numberOfReinforcement = aliceObj.numberOfReinforcement ∧
      q.negotiate = aliceObj.negotiate ∧ q.ownedTerritories = aliceObj.ownedTerritories ∧
      q.playerHand = aliceObj.playerHand ∧
      readList m' q.playerOrders = some aliceQueue ∧
      readList m' aliceObj.playerOrders = some aliceQueue ∧
      q.playerOrders ≠ aliceObj.playerOrders ∧
      ∀ added : List Order,
        readList (added.foldl (fun s o => appendList s q.playerOrders o) m')
          aliceObj.playerOrders = some aliceQueue ∧
        readList (added.foldl (fun s o => appendList s q.playerOrders o) m') q.playerOrders
          = some (aliceQueue ++ added) :=
  ⟨by decide, by decide, by decide, by decide,
    (copy_independent bumpAllocator sampleStore aliceObj aliceQueue (by decide)).1⟩

/-- C16: assigning a player to itself returns at once: the store, and with it the length
and contents of the queue, and the name, pool, hand, owned-territory list and negotiation
flag of the player are what they were. -/
theorem assign_self (A : Allocator) (m : ListStore) (a : Addr) (p : PlayerObj) :
    assign A m a p a p = some (m, p) ∧
    ∀ r, assign A m a p a p = some r →
      r.2 = p ∧ readList r.1 r.2.playerOrders = readList m p.playerOrders ∧
      r.2.value r.1 = p.value m := by
  have h : assign A m a p a p = some (m, p) := by simp [assign]
  refine ⟨h, ?_⟩
  intro r hr
  rw [h] at hr
  cases hr
  exact ⟨rfl, rfl, rfl⟩

end Player

end Warzone
